import Mathlib

/-!
Verification of the trajectory reader in `input.py`.

The program is embedded shallowly.  Python objects whose identity and
mutation are observable (the `Molecule` objects and their `atoms` lists,
including the shared mutable default argument of `Molecule.__init__`) are
modelled with an explicit store `PState`: molecule objects live in
`PState.mols` (addressed by allocation index) and list objects live in
`PState.lists` (addressed by allocation index, index `0` being the single
list object created once for the default argument `atoms=[]`).  Fatal
behaviours of the source (`exit(1)` on a non-`ATOM` row, an uncaught
`ValueError` from tuple unpacking or `int`/`float` conversion, an uncaught
`IndexError` from `parts[0]` on an empty token list) are modelled with the
error monad `Except PErr`.
-/

namespace Pscm

/-- Characters treated as whitespace by Python's `str.strip()` with no
argument. -/
def isPySpace (c : Char) : Bool :=
  c = ' ' || c = '\t' || c = '\n' || c = '\r' || c = '\x0b' || c = '\x0c'

/-- Python `str.strip()`: drop leading and trailing whitespace. -/
def pstrip (s : String) : String :=
  String.mk (((s.toList.dropWhile isPySpace).reverse.dropWhile isPySpace).reverse)

/-- Python `str.split(' ')`: cut at every space character, keeping the empty
pieces that arise between consecutive separators (and at the ends). -/
def splitSp : List Char → List (List Char)
  | [] => [[]]
  | c :: cs =>
    let r := splitSp cs
    if c = ' ' then [] :: r else (c :: r.headD []) :: r.tail

/-- The token list the source computes from a line:
`[x for x in a.split(' ') if x != '']`. -/
def tokenize (s : String) : List String :=
  ((splitSp s.toList).map String.mk).filter (fun t => t ≠ "")

/-- Numeric value of a digit string (junk characters contribute garbage; it
is only used on strings checked to consist of digits). -/
def digitsVal : List Char → Nat → Nat
  | [], acc => acc
  | c :: cs, acc => digitsVal cs (acc * 10 + (c.toNat - 48))

/-- Python `int(s)` on a string: optional surrounding whitespace, optional
sign, then a nonempty run of decimal digits; anything else raises. -/
def intParse? (s : String) : Option Int :=
  match (pstrip s).toList with
  | [] => none
  | '+' :: cs =>
    if cs ≠ [] && cs.all Char.isDigit then some (Int.ofNat (digitsVal cs 0)) else none
  | '-' :: cs =>
    if cs ≠ [] && cs.all Char.isDigit then some (-(Int.ofNat (digitsVal cs 0))) else none
  | cs =>
    if cs.all Char.isDigit then some (Int.ofNat (digitsVal cs 0)) else none

/-- Exact value of a parsed floating-point literal, `mant * 10 ^ exp10`.
No claim inspects coordinate values, so the exact decimal reading of the
token stands in for the binary `float` the source stores. -/
structure PyFloat where
  mant : Int
  exp10 : Int
deriving DecidableEq

/-- Split a character list at the first `'.'`, if any. -/
def splitAtDot : List Char → List Char × Option (List Char)
  | [] => ([], none)
  | c :: cs =>
    if c = '.' then ([], some cs)
    else
      let r := splitAtDot cs
      (c :: r.1, r.2)

/-- Split a character list at the first `'e'` or `'E'`, if any. -/
def splitAtExp : List Char → List Char × Option (List Char)
  | [] => ([], none)
  | c :: cs =>
    if c = 'e' || c = 'E' then ([], some cs)
    else
      let r := splitAtExp cs
      (c :: r.1, r.2)

/-- Strip one optional leading sign, returning the sign as `1` or `-1`. -/
def signSplit : List Char → Int × List Char
  | '+' :: cs => (1, cs)
  | '-' :: cs => (-1, cs)
  | cs => (1, cs)

/-- Python `float(s)` on ordinary decimal notation: optional surrounding
whitespace, optional sign, digits with an optional fractional part (at
least one digit overall), and an optional signed decimal exponent. -/
def floatParse? (s : String) : Option PyFloat :=
  let cs := (pstrip s).toList
  let sc := signSplit cs
  let me := splitAtExp sc.2
  let ifr := splitAtDot me.1
  let intC := ifr.1
  let fracC := (ifr.2).getD []
  if intC.all Char.isDigit && fracC.all Char.isDigit && (intC ≠ [] || fracC ≠ []) then
    match me.2 with
    | none =>
      some ⟨sc.1 * Int.ofNat (digitsVal (intC ++ fracC) 0), -(Int.ofNat fracC.length)⟩
    | some ec =>
      let se := signSplit ec
      if se.2 ≠ [] && se.2.all Char.isDigit then
        some ⟨sc.1 * Int.ofNat (digitsVal (intC ++ fracC) 0),
              se.1 * Int.ofNat (digitsVal se.2 0) - Int.ofNat fracC.length⟩
      else none
  else none

/-- An `AtomBond` object.  `tag` is the object's identity (allocation
order across the whole run); `molecule` is the back-reference, the store
address of the owning `Molecule` object. -/
structure AtomBond where
  tag : Nat
  name : String
  id : Int
  x : PyFloat
  y : PyFloat
  z : PyFloat
  molecule : Nat
deriving DecidableEq

/-- A `Molecule` object: its `id` field and the store address of its
`atoms` list object.  Address `0` is the shared default-argument list. -/
structure MolData where
  idx : Int
  atomsRef : Nat
deriving DecidableEq

/-- The store: all `Molecule` objects and all atom-list objects allocated
so far, each addressed by allocation index, plus the next atom tag.
`lists` starts as `[[]]`: entry `0` is the one list object created when
`def __init__(self, idx, atoms=[])` was evaluated. -/
structure PState where
  mols : List MolData
  lists : List (List Nat)
  nextTag : Nat
deriving DecidableEq

/-- Store at interpreter start: no molecules, only the shared (empty)
default list, no atoms yet. -/
def initState : PState := ⟨[], [[]], 0⟩

/-- A `Frame` object: its number, its atom sequence in parse order, and
its molecule sequence as store addresses. -/
structure Frame where
  num : Int
  atoms : List AtomBond
  molecules : List Nat
deriving DecidableEq

/-- Python list subscript `l[i]`: nonnegative indices from the front,
negative indices from the back, `IndexError` (here `none`) otherwise. -/
def pyGet? {α : Type} (l : List α) (i : Int) : Option α :=
  if 0 ≤ i then l.get? i.toNat
  else if 0 ≤ (l.length : Int) + i then l.get? ((l.length : Int) + i).toNat
  else none

/-- Python `l.insert(i, a)`: the index is clamped into `[0, len(l)]`,
negative indices counting from the back. -/
def pyInsertIdx {α : Type} (l : List α) (i : Int) (a : α) : List α :=
  let j : Nat := if i < 0 then ((l.length : Int) + i).toNat else min i.toNat l.length
  l.take j ++ a :: l.drop j

/-- Allocate a fresh list object initialized to `xs`; returns its address. -/
def allocList (st : PState) (xs : List Nat) : PState × Nat :=
  (⟨st.mols, st.lists ++ [xs], st.nextTag⟩, st.lists.length)

/-- Allocate a fresh `Molecule` object; returns its address. -/
def allocMol (st : PState) (m : MolData) : PState × Nat :=
  (⟨st.mols ++ [m], st.lists, st.nextTag⟩, st.mols.length)

/-- Append a tag to the list object at address `r` (`.atoms.append(at)`). -/
def appendTag (st : PState) (r : Nat) (t : Nat) : PState :=
  ⟨st.mols, st.lists.set r (st.lists.getD r [] ++ [t]), st.nextTag⟩

/-- Draw a fresh atom tag. -/
def freshTag (st : PState) : PState × Nat :=
  (⟨st.mols, st.lists, st.nextTag + 1⟩, st.nextTag)

/-- The fatal conditions of the source: `ValueError` from tuple unpacking
or `int`/`float`, `IndexError` from `parts[0]`, and the explicit
`print` + `exit(1)` on a non-`ATOM` row. -/
inductive PErr where
  | valueError
  | indexError
  | nonAtomExit (line : String)
deriving DecidableEq

deriving instance DecidableEq for Except

/-- The eleven fields a line unpacks into, after numeric conversion. -/
structure RawRec where
  typ : String
  serial : Int
  name : String
  molId : Int
  x : PyFloat
  y : PyFloat
  z : PyFloat
deriving DecidableEq

/-- One line's unpacking and numeric conversions, in source order: split
and filter, unpack exactly 11 tokens, `int(mol_id)`, `int(num)`, then the
three `float` conversions.  Any failure is an uncaught `ValueError`. -/
def parseLine (a : String) : Except PErr RawRec :=
  match tokenize a with
  | [typ, numS, nameS, _, molS, xS, yS, zS, _, _, _] =>
    match intParse? molS with
    | none => Except.error PErr.valueError
    | some molId =>
      match intParse? numS with
      | none => Except.error PErr.valueError
      | some serial =>
        match floatParse? xS, floatParse? yS, floatParse? zS with
        | some x, some y, some z => Except.ok ⟨typ, serial, nameS, molId, x, y, z⟩
        | _, _, _ => Except.error PErr.valueError
  | _ => Except.error PErr.valueError

/-- The `try`/`except IndexError` body of `Frame.__init__`: look the
molecule sequence up at position `mol_id`; on success append the atom to
that molecule's list, otherwise create `Molecule(mol_id, [])`, append the
atom to it, and `insert` it at position `mol_id + 1`.  Returns the new
store, the new molecule sequence and the constructed atom (with its
back-reference already in its final state). -/
def assignAtom (st : PState) (molecules : List Nat) (r : RawRec) :
    PState × List Nat × AtomBond :=
  let ft := freshTag st
  let st1 := ft.1
  let t := ft.2
  match pyGet? molecules r.molId with
  | some mref =>
    let ab : AtomBond := ⟨t, r.name, r.serial, r.x, r.y, r.z, mref⟩
    (appendTag st1 (st1.mols.getD mref ⟨0, 0⟩).atomsRef t, molecules, ab)
  | none =>
    let al := allocList st1 []
    let st2 := al.1
    let lref := al.2
    let am := allocMol st2 ⟨r.molId, lref⟩
    let st3 := am.1
    let mref := am.2
    let ab : AtomBond := ⟨t, r.name, r.serial, r.x, r.y, r.z, mref⟩
    (appendTag st3 lref t, pyInsertIdx molecules (r.molId + 1) mref, ab)

/-- One loop iteration of `Frame.__init__`: parse the line; on an `ATOM`
row construct the atom, append it to the frame's atom list and assign it
to its molecule; on any other row print and `exit(1)`. -/
def buildStep (st : PState) (fr : Frame) (a : String) : Except PErr (PState × Frame) :=
  match parseLine a with
  | Except.error e => Except.error e
  | Except.ok r =>
    if r.typ = "ATOM" then
      let res := assignAtom st fr.molecules r
      Except.ok (res.1, ⟨fr.num, fr.atoms ++ [res.2.2], res.2.1⟩)
    else Except.error (PErr.nonAtomExit a)

/-- The loop of `Frame.__init__` over the frame's lines. -/
def buildFrameAux (st : PState) (fr : Frame) : List String → Except PErr (PState × Frame)
  | [] => Except.ok (st, fr)
  | a :: rest =>
    match buildStep st fr a with
    | Except.error e => Except.error e
    | Except.ok p => buildFrameAux p.1 p.2 rest

/-- `Frame(num, atom_strs)`: start with the sentinel `Molecule(0)` —
whose `atoms` is the shared default list object, address `0` — then run
the loop. -/
def buildFrame (st : PState) (num : Int) (atom_strs : List String) :
    Except PErr (PState × Frame) :=
  let sm := allocMol st ⟨0, 0⟩
  buildFrameAux sm.1 ⟨num, [], [sm.2]⟩ atom_strs

/-- `valid_pdb`: scan the lines; on the first line whose first token is
`ATOM`, succeed exactly when there are 11 tokens.  `parts[0]` on a line
with no tokens raises `IndexError`. -/
def valid_pdb : List String → Except PErr Bool
  | [] => Except.ok false
  | l :: ls =>
    match tokenize (pstrip l) with
    | [] => Except.error PErr.indexError
    | p :: ps =>
      if p = "ATOM" then Except.ok ((p :: ps).length == 11) else valid_pdb ls

/-- The loop of `read_pdb` after the skipped header line: buffer stripped
lines, and on each literal `END` build a frame from the buffer. -/
def readLoop (st : PState) (frames : List Frame) (buf : List String) (frameNo : Nat) :
    List String → Except PErr (PState × List Frame)
  | [] => Except.ok (st, frames)
  | l :: ls =>
    let line := pstrip l
    if line = "END" then
      match buildFrame st (Int.ofNat frameNo) buf with
      | Except.error e => Except.error e
      | Except.ok p => readLoop p.1 (frames ++ [p.2]) [] (frameNo + 1) ls
    else readLoop st frames (buf ++ [line]) frameNo ls

/-- `read_pdb`: validate; if invalid, report and return `(False, [])`;
otherwise skip the first line and run the frame-splitting loop.  The final
store is returned alongside so that the returned objects can be read. -/
def read_pdb (lines : List String) : Except PErr (Bool × List Frame × PState) :=
  match valid_pdb lines with
  | Except.error e => Except.error e
  | Except.ok false => Except.ok (false, [], initState)
  | Except.ok true =>
    match readLoop initState [] [] 0 (lines.drop 1) with
    | Except.error e => Except.error e
    | Except.ok p => Except.ok (true, p.2, p.1)

/-- Exit status of the `__main__` block on the given `sys.argv` and file
contents: `1` for a missing argument or any uncaught exception or
`exit(1)` (including the `IndexError`s of the three final prints), `0`
otherwise; note the invalid-file branch falls through to a normal exit. -/
def mainExit (argv : List String) (fileLines : List String) : Nat :=
  if argv.length < 2 then 1
  else
    match read_pdb fileLines with
    | Except.error _ => 1
    | Except.ok (false, _, _) => 0
    | Except.ok (true, frames, _) =>
      match frames with
      | [] => 1
      | f :: _ => if 1 < f.molecules.length then (if 0 < f.atoms.length then 0 else 1) else 1

/-- The parsed record of a line, provided it is a well-formed `ATOM` row. -/
def atomRec? (l : String) : Option RawRec :=
  match parseLine l with
  | Except.ok r => if r.typ = "ATOM" then some r else none
  | Except.error _ => none

/-- The molecule ids carried by the well-formed `ATOM` rows of a line list. -/
def molIds (ls : List String) : List Int :=
  ls.filterMap (fun l => (atomRec? l).map RawRec.molId)

/-- First-appearance deduplication, with an accumulator of ids seen. -/
def firstDedupAux (seen : List Int) : List Int → List Int
  | [] => []
  | d :: ds =>
    if d ∈ seen then firstDedupAux seen ds else d :: firstDedupAux (d :: seen) ds

/-- The distinct values of a list in first-appearance order. -/
def firstDedup (ds : List Int) : List Int := firstDedupAux [] ds

/-- The integer list `[a, a+1, ..., a+k-1]`. -/
def idRange (a k : Nat) : List Int := (List.range' a k).map (fun j => (j : Int))

/-- The `id` field of the molecule at position `j` of a frame's molecule
sequence, read through the store. -/
def molIdxAt (st : PState) (f : Frame) (j : Nat) : Option Int :=
  match f.molecules.get? j with
  | none => none
  | some r => (st.mols.get? r).map MolData.idx

/-- The contents of the `atoms` list of the molecule object at store
address `r`. -/
def molListAt (st : PState) (r : Nat) : List Nat :=
  st.lists.getD (st.mols.getD r ⟨0, 0⟩).atomsRef []

/-- Modelled from the spec: the whitespace-collapsed token list of the
first line whose first token is the atom marker, if any line qualifies.
Stated alongside `valid_pdb` for comparison; it is the claim's description
of validation, not the source's code. -/
def specFirstMarker : List String → Option (List String)
  | [] => none
  | l :: ls =>
    let parts := tokenize (pstrip l)
    if parts.head? = some "ATOM" then some parts else specFirstMarker ls

/-- Modelled from the spec: validation succeeds exactly when the first
marker line exists and has 11 tokens. -/
def specValidResult (lines : List String) : Bool :=
  match specFirstMarker lines with
  | some parts => parts.length == 11
  | none => false

/-- Every tag stored in any list object is below the next fresh tag. -/
def TagsBound (st : PState) : Prop :=
  ∀ n xs, st.lists.get? n = some xs → ∀ t ∈ xs, t < st.nextTag

/-- Every address in a molecule sequence resolves to a molecule object
whose `atoms` list address resolves to a list object. -/
def MsOK (st : PState) (ms : List Nat) : Prop :=
  ∀ mr ∈ ms, ∃ md, st.mols.get? mr = some md ∧
    ∃ xs, st.lists.get? md.atomsRef = some xs

/-- Every listed atom's back-referenced molecule owns it exactly once:
the atom's tag occurs exactly once in that molecule's list object. -/
def AtomsOnce (st : PState) (as : List AtomBond) : Prop :=
  ∀ a ∈ as, a.tag < st.nextTag ∧ ∃ md, st.mols.get? a.molecule = some md ∧
    ∃ xs, st.lists.get? md.atomsRef = some xs ∧ xs.count a.tag = 1

/-- The frame list of a successful `read_pdb` run (and `[]` on a crash);
used to name the components of a concrete run. -/
def readFramesOf (lines : List String) : List Frame :=
  match read_pdb lines with
  | Except.ok p => p.2.1
  | Except.error _ => []

/-- The final store of a successful `read_pdb` run. -/
def readStateOf (lines : List String) : PState :=
  match read_pdb lines with
  | Except.ok p => p.2.2
  | Except.error _ => initState

/-- An empty frame, used as a `headD` default when naming concrete frames. -/
def emptyFrame : Frame := ⟨0, [], []⟩

/-- A placeholder atom, used as a `headD` default. -/
def dummyAtom : AtomBond := ⟨0, "", 0, ⟨0, 0⟩, ⟨0, 0⟩, ⟨0, 0⟩, 0⟩

/-- A run of `n + 1` spaces. -/
def spacesC (n : Nat) : List Char := List.replicate (n + 1) ' '

/-- Join fields with runs of spaces, the `k`-th run having `ns[k] + 1`
spaces. -/
def sepJoinC : List (List Char) → List Nat → List Char
  | [], _ => []
  | [f], _ => f
  | f :: g :: fs, ns => f ++ spacesC (ns.headD 0) ++ sepJoinC (g :: fs) ns.tail

/-- A well-formed `ATOM` line with molecule id 1. -/
def atomLine1 : String := "ATOM 1 H1 TIP3W 1 1.0 2.0 3.0 0.00 0.00 W"

/-- A well-formed `ATOM` line with molecule id 2. -/
def atomLine2 : String := "ATOM 2 H2 TIP3W 2 1.5 2.5 3.5 0.00 0.00 W"

/-- Another well-formed `ATOM` line with molecule id 1. -/
def atomLine1b : String := "ATOM 3 H3 TIP3W 1 1.0 2.0 3.0 0.00 0.00 W"

/-- A well-formed line whose record marker is `HETATM`. -/
def hetLine : String := "HETATM 4 H4 TIP3W 5 1.0 2.0 3.0 0.00 0.00 W"

/-- A `HETATM` line whose serial field is not an integer. -/
def hetBadLine : String := "HETATM a H4 TIP3W 5 1.0 2.0 3.0 0.00 0.00 W"

/-- An atom line with its eleven fields separated by single spaces. -/
def spaceLine : String := "ATOM 1 H2 T 1 1.0 2.0 3.0 0.0 0.0 W"

/-- The same eleven fields separated by tabs. -/
def tabLine : String := "ATOM\t1\tH2\tT\t1\t1.0\t2.0\t3.0\t0.0\t0.0\tW"

/-- A two-frame trajectory file: header, ids 1 and 2, `END`, id 1, `END`. -/
def demoLines : List String :=
  ["COMPND water", atomLine1, atomLine2, "END", atomLine1b, "END"]

/-- A file whose first frame has an atom with molecule id 0. -/
def zeroLines : List String :=
  ["COMPND water", "ATOM 1 H1 TIP3W 0 1.0 2.0 3.0 0.00 0.00 W", "END", atomLine1b, "END"]

/-- A file with no `ATOM` line at all. -/
def invalidLines : List String := ["REMARK header", "FOO bar"]

/-- A file whose first line is blank; the second is a well-formed atom line. -/
def blankLines : List String := ["", spaceLine]

/-- Frame lines carrying molecule id 2 first and then molecule id 1. -/
def outOfOrderLines : List String :=
  ["ATOM 1 H1 T 2 1.0 2.0 3.0 0.0 0.0 W", "ATOM 2 H2 T 1 1.0 2.0 3.0 0.0 0.0 W"]

/-- The first frame returned for `demoLines`. -/
def demoFrame0 : Frame := (readFramesOf demoLines).headD emptyFrame

/-- The first atom of `demoFrame0`. -/
def demoAtom0 : AtomBond := demoFrame0.atoms.headD dummyAtom

/-- The first frame returned for `zeroLines` (it holds the id-0 atom). -/
def zeroFrame0 : Frame := (readFramesOf zeroLines).headD emptyFrame

/-- The id-0 atom of `zeroFrame0`. -/
def zeroAtom0 : AtomBond := zeroFrame0.atoms.headD dummyAtom

/-- The second frame returned for `zeroLines`. -/
def zeroFrame1 : Frame := (readFramesOf zeroLines).getD 1 emptyFrame

theorem splitSp_ne_nil (cs : List Char) : splitSp cs ≠ [] := by
  cases cs with
  | nil => simp [splitSp]
  | cons c cs => simp only [splitSp]; split <;> simp

theorem mk_eq_empty_iff (a : List Char) : String.mk a = "" ↔ a = [] := by
  constructor
  · intro h; simpa using congrArg String.data h
  · intro h; rw [h]

theorem splitSp_append_nonspace (f : List Char) (cs : List Char)
    (hf : ∀ c ∈ f, c ≠ ' ') :
    splitSp (f ++ cs) = (f ++ (splitSp cs).headD []) :: (splitSp cs).tail := by
  induction f with
  | nil =>
    obtain ⟨a, l, h⟩ := List.exists_cons_of_ne_nil (splitSp_ne_nil cs)
    rw [List.nil_append, h]; rfl
  | cons c f ih =>
    have hc : ¬(c = ' ') := hf c (by simp)
    rw [List.cons_append]
    simp only [splitSp]
    rw [if_neg hc, ih (fun d hd => hf d (by simp [hd]))]
    simp only [List.headD_cons, List.tail_cons, List.cons_append]

theorem splitSp_replicate_space (m : Nat) (cs : List Char) :
    splitSp (List.replicate m ' ' ++ cs) = List.replicate m [] ++ splitSp cs := by
  induction m with
  | zero => simp
  | succ n ih =>
    rw [List.replicate_succ, List.cons_append]
    simp only [splitSp]
    simp [ih, List.replicate_succ]

theorem filter_replicate_nil_append (m : Nat) (l : List (List Char)) :
    (List.replicate m ([] : List Char) ++ l).filter (fun t => t ≠ []) =
      l.filter (fun t => t ≠ []) := by
  induction m with
  | zero => simp
  | succ n ih =>
    rw [List.replicate_succ, List.cons_append, List.filter_cons]
    simpa using ih

theorem map_mk_filter (l : List (List Char)) :
    ((l.map String.mk).filter (fun t => t ≠ "")) =
      (l.filter (fun t => t ≠ [])).map String.mk := by
  induction l with
  | nil => rfl
  | cons a l ih =>
    rw [List.map_cons, List.filter_cons, List.filter_cons]
    by_cases ha : a = []
    · subst ha
      have h0 : String.mk [] = "" := rfl
      rw [h0]
      simpa using ih
    · have hmk : ¬(String.mk a = "") := fun h => ha ((mk_eq_empty_iff a).1 h)
      simp only [ne_eq]
      rw [if_pos (by simp [hmk]), if_pos (by simp [ha]), List.map_cons, ih]

theorem tokenize_eq_filter_mk (s : String) :
    tokenize s = ((splitSp s.toList).filter (fun t => t ≠ [])).map String.mk := by
  unfold tokenize
  exact map_mk_filter (splitSp s.toList)

theorem splitSp_sepJoin (fields : List (List Char)) :
    ∀ ns : List Nat, fields ≠ [] → (∀ f ∈ fields, f ≠ [] ∧ ∀ c ∈ f, c ≠ ' ') →
    (splitSp (sepJoinC fields ns)).filter (fun t => t ≠ []) = fields := by
  induction fields with
  | nil => intro ns h _; exact absurd rfl h
  | cons f fs ih =>
    intro ns _ hf
    have hfne : f ≠ [] := (hf f (by simp)).1
    have hfsp : ∀ c ∈ f, c ≠ ' ' := (hf f (by simp)).2
    cases fs with
    | nil =>
      show (splitSp f).filter (fun t => t ≠ []) = [f]
      have h0 : splitSp (f ++ ([] : List Char)) =
          (f ++ (splitSp []).headD []) :: (splitSp []).tail :=
        splitSp_append_nonspace f [] hfsp
      rw [List.append_nil] at h0
      rw [h0]
      simp only [splitSp, List.headD, List.tail, List.append_nil]
      rw [List.filter_cons]
      simp [hfne]
    | cons g gs =>
      show (splitSp (f ++ spacesC (ns.headD 0) ++ sepJoinC (g :: gs) ns.tail)).filter
            (fun t => t ≠ []) = f :: g :: gs
      rw [List.append_assoc,
        splitSp_append_nonspace f _ hfsp]
      unfold spacesC
      rw [splitSp_replicate_space, List.replicate_succ, List.cons_append]
      simp only [List.headD_cons, List.tail_cons, List.append_nil]
      rw [List.filter_cons]
      have hdec : (decide (f ≠ [])) = true := by simp [hfne]
      rw [if_pos hdec, filter_replicate_nil_append]
      exact congrArg (f :: ·) (ih ns.tail (by simp) (fun q hq => hf q (by simp [hq])))

/-- C9, corrected: the source splits each line on the space character only
(`a.split(' ')` with empty tokens discarded), not on general whitespace.
Amended statement: any line assembled from space-free nonempty fields
separated by arbitrary positive runs of spaces tokenizes to exactly those
fields (so two lines that differ only in their runs of spaces parse to the
same field list); tab-separated lines are not split this way. -/
theorem tokenize_splits_on_space_runs (fields : List (List Char)) (ns : List Nat)
    (hne : fields ≠ []) (hf : ∀ f ∈ fields, f ≠ [] ∧ ∀ c ∈ f, c ≠ ' ') :
    tokenize (String.mk (sepJoinC fields ns)) = fields.map String.mk := by
  rw [tokenize_eq_filter_mk]
  have ht : (String.mk (sepJoinC fields ns)).toList = sepJoinC fields ns := rfl
  rw [ht, splitSp_sepJoin fields ns hne hf]

/-- C9, counterexample to the claim as stated: the space-separated line
and the tab-separated line with the same eleven field contents do not
yield the same fields — the tab line stays a single token and its
unpacking raises `ValueError` rather than producing 11 fields. -/
theorem tokenize_tab_counterexample :
    (tokenize spaceLine).length = 11 ∧
      tokenize tabLine ≠ tokenize spaceLine ∧
      parseLine tabLine = Except.error PErr.valueError := by decide

/-- C9, witness: the field list of `spaceLine`, rejoined with runs of
spaces of varying widths, tokenizes back to exactly those fields. -/
theorem tokenize_splits_on_space_runs_witness :
    tokenize (String.mk (sepJoinC
        ["ATOM".toList, "1".toList, "H2".toList, "T".toList, "1".toList,
         "1.0".toList, "2.0".toList, "3.0".toList, "0.0".toList, "0.0".toList,
         "W".toList] [0, 2, 1, 0, 4, 0, 0, 3, 0, 0])) =
      (["ATOM".toList, "1".toList, "H2".toList, "T".toList, "1".toList,
        "1.0".toList, "2.0".toList, "3.0".toList, "0.0".toList, "0.0".toList,
        "W".toList]).map String.mk :=
  tokenize_splits_on_space_runs _ _ (by decide) (by decide)

/-- C5, counterexample to the claim as stated: the validator is not total
on line sources with blank lines — on a source whose first line is empty,
`parts[0]` raises `IndexError` instead of scanning on to the well-formed
marker line, so no boolean is returned at all. -/
theorem valid_pdb_blank_counterexample :
    valid_pdb blankLines = Except.error PErr.indexError := by decide

/-- C5, amended: on every line source none of whose lines is blank or
whitespace-only (each line has at least one token), `valid_pdb` terminates
with the boolean determined by the first line whose first token is the
atom marker — true exactly when that line has 11 tokens, false otherwise,
and false when no marker line exists; later lines are never consulted. -/
theorem valid_pdb_cons (l : String) (ls : List String) :
    valid_pdb (l :: ls) = (match tokenize (pstrip l) with
      | [] => Except.error PErr.indexError
      | p :: ps =>
        if p = "ATOM" then Except.ok ((p :: ps).length == 11) else valid_pdb ls) := rfl

theorem specFirstMarker_cons (l : String) (ls : List String) :
    specFirstMarker (l :: ls) =
      (if (tokenize (pstrip l)).head? = some "ATOM" then some (tokenize (pstrip l))
       else specFirstMarker ls) := rfl

theorem valid_pdb_first_marker (lines : List String)
    (hb : ∀ l ∈ lines, tokenize (pstrip l) ≠ []) :
    valid_pdb lines = Except.ok (specValidResult lines) := by
  induction lines with
  | nil => rfl
  | cons l ls ih =>
    obtain ⟨p, ps, hps⟩ := List.exists_cons_of_ne_nil (hb l (by simp))
    have hv : valid_pdb (l :: ls) =
        (if p = "ATOM" then Except.ok (((p :: ps).length == 11)) else valid_pdb ls) := by
      rw [valid_pdb_cons, hps]
    have hm : specFirstMarker (l :: ls) =
        (if p = "ATOM" then some (p :: ps) else specFirstMarker ls) := by
      rw [specFirstMarker_cons, hps]
      by_cases hp : p = "ATOM"
      · rw [if_pos hp, if_pos (by simp [hp])]
      · rw [if_neg hp, if_neg (by simp [hp])]
    rw [hv]
    by_cases hp : p = "ATOM"
    · rw [if_pos hp]
      have hs : specValidResult (l :: ls) = ((p :: ps).length == 11) := by
        unfold specValidResult
        rw [hm, if_pos hp]
      rw [hs]
    · rw [if_neg hp]
      have hs : specValidResult (l :: ls) = specValidResult ls := by
        unfold specValidResult
        rw [hm, if_neg hp]
      rw [hs]
      exact ih (fun q hq => hb q (by simp [hq]))

/-- C5, witness for the amended theorem: a source with a non-marker
header line followed by a well-formed atom line validates to true. -/
theorem valid_pdb_first_marker_witness :
    valid_pdb ["CRYST1 header", spaceLine] =
      Except.ok (specValidResult ["CRYST1 header", spaceLine]) :=
  valid_pdb_first_marker _ (by decide)

/-- C8, counterexample to the claim as stated: on a file that fails
validation the process does not exit with status 1 — the `__main__` block
has no `exit(1)` on that path, so after `read_pdb` returns `(False, [])`
the interpreter falls through and exits with status 0. -/
theorem invalid_file_exit_counterexample :
    valid_pdb invalidLines = Except.ok false ∧
      mainExit ["prog", "file.pdb"] invalidLines = 0 := by decide

/-- C8, amended: when the command is invoked (with a file argument) on a
file that fails validation, `read_pdb` surfaces the failure as the
recoverable result `(False, [])` without constructing any `Frame`, and
the process exits with status 0, not 1. -/
theorem invalid_file_not_fatal (argv lines : List String)
    (ha : 2 ≤ argv.length) (hv : valid_pdb lines = Except.ok false) :
    read_pdb lines = Except.ok (false, [], initState) ∧ mainExit argv lines = 0 := by
  have hr : read_pdb lines = Except.ok (false, [], initState) := by
    unfold read_pdb
    rw [hv]
  refine ⟨hr, ?_⟩
  unfold mainExit
  rw [if_neg (by omega), hr]

/-- C8, witness for the amended theorem at a concrete invalid file. -/
theorem invalid_file_not_fatal_witness :
    read_pdb invalidLines = Except.ok (false, [], initState) ∧
      mainExit ["prog", "file.pdb"] invalidLines = 0 :=
  invalid_file_not_fatal ["prog", "file.pdb"] invalidLines (by decide) (by decide)

theorem atomRec?_eq_some {l : String} {r : RawRec} (h : atomRec? l = some r) :
    parseLine l = Except.ok r ∧ r.typ = "ATOM" := by
  unfold atomRec? at h
  cases hp : parseLine l with
  | error e =>
    rw [hp] at h
    have h2 : (none : Option RawRec) = some r := h
    simp at h2
  | ok r' =>
    rw [hp] at h
    have h2 : (if r'.typ = "ATOM" then some r' else none) = some r := h
    by_cases ht : r'.typ = "ATOM"
    · rw [if_pos ht] at h2
      injection h2 with h3
      subst h3
      exact ⟨rfl, ht⟩
    · rw [if_neg ht] at h2
      simp at h2

theorem buildStep_of_atomRec {a : String} {r : RawRec} (h : atomRec? a = some r)
    (st : PState) (fr : Frame) :
    buildStep st fr a = Except.ok
      ((assignAtom st fr.molecules r).1,
       ⟨fr.num, fr.atoms ++ [(assignAtom st fr.molecules r).2.2],
        (assignAtom st fr.molecules r).2.1⟩) := by
  obtain ⟨hp, ht⟩ := atomRec?_eq_some h
  unfold buildStep
  rw [hp]
  simp [ht]

theorem buildFrameAux_append_wf (pre : List String) :
    ∀ (st : PState) (fr : Frame), (∀ p ∈ pre, (atomRec? p).isSome = true) →
    ∀ tail, ∃ st' fr', buildFrameAux st fr (pre ++ tail) = buildFrameAux st' fr' tail := by
  induction pre with
  | nil => intro st fr _ tail; exact ⟨st, fr, rfl⟩
  | cons p pre ih =>
    intro st fr hw tail
    obtain ⟨r, hr⟩ := Option.isSome_iff_exists.1 (hw p (by simp))
    rw [List.cons_append]
    show ∃ st' fr', buildFrameAux st fr (p :: (pre ++ tail)) = buildFrameAux st' fr' tail
    simp only [buildFrameAux]
    rw [buildStep_of_atomRec hr]
    exact ih _ _ (fun q hq => hw q (by simp [hq])) tail

/-- C3, counterexample to the claim as stated: a line whose marker is not
`ATOM` does not always reach the print-and-exit path — the tuple
unpacking and numeric conversions run first, so a `HETATM` line whose
serial field is not an integer dies with an uncaught `ValueError`
(a different fatal path that does not print the offending line). -/
theorem nonatom_exit_counterexample :
    buildFrame initState 0 [hetBadLine] = Except.error PErr.valueError ∧
      Except.error (α := PState × Frame) (PErr.nonAtomExit hetBadLine) ≠
        Except.error PErr.valueError := by decide

/-- C3, amended: for every frame line that survives unpacking and numeric
conversion (exactly 11 tokens, integer serial and molecule id, float
coordinates) but whose record marker is not `ATOM`, and that is reached
(all earlier lines of the frame are well-formed `ATOM` rows), the build
stops at that line with the print-and-exit(1) condition carrying the
offending line, and no `Frame` is produced from that build. -/
theorem build_nonatom_fatal (st : PState) (num : Int) (pre rest : List String)
    (l : String) (r : RawRec)
    (hpre : ∀ p ∈ pre, (atomRec? p).isSome = true)
    (hl : parseLine l = Except.ok r) (ht : r.typ ≠ "ATOM") :
    buildFrame st num (pre ++ l :: rest) = Except.error (PErr.nonAtomExit l) := by
  unfold buildFrame
  obtain ⟨st', fr', heq⟩ := buildFrameAux_append_wf pre _ _ hpre (l :: rest)
  rw [heq]
  simp only [buildFrameAux, buildStep]
  rw [hl]
  simp [ht]

/-- C3, witness for the amended theorem: one good `ATOM` row, then a
well-formed `HETATM` row, then a junk line never reached. -/
theorem build_nonatom_fatal_witness :
    buildFrame initState 0 ([atomLine1] ++ hetLine :: ["junk"]) =
      Except.error (PErr.nonAtomExit hetLine) :=
  build_nonatom_fatal initState 0 [atomLine1] ["junk"] hetLine
    ⟨"HETATM", 4, "H4", 5, ⟨10, -1⟩, ⟨20, -1⟩, ⟨30, -1⟩⟩
    (by decide) (by decide) (by decide)

theorem getD_concat_length {α : Type} (l : List α) (x : α) (d : α) :
    (l ++ [x]).getD l.length d = x := by
  induction l with
  | nil => rfl
  | cons a l ih => simpa using ih

theorem set_concat_length {α : Type} (l : List α) (x y : α) :
    (l ++ [x]).set l.length y = l ++ [y] := by
  induction l with
  | nil => rfl
  | cons a l ih => simpa using ih

theorem get?_append2_right {α : Type} (l : List α) (x y : α) :
    (l ++ [x, y]).get? (l.length + 1) = some y := by
  have h : l ++ [x, y] = (l ++ [x]) ++ [y] := by simp
  have h2 := List.get?_concat_length (l ++ [x]) y
  rw [h]
  simpa using h2

theorem pyGet?_natCast {α : Type} (l : List α) (n : Nat) :
    pyGet? l ((n : Nat) : Int) = l.get? n := by
  unfold pyGet?
  rw [if_pos (show (0 : Int) ≤ ((n : Nat) : Int) by omega)]
  simp

theorem pyInsert_ge {α : Type} (l : List α) (i : Int) (a : α)
    (hi : 0 ≤ i) (hl : l.length ≤ i.toNat) :
    pyInsertIdx l i a = l ++ [a] := by
  unfold pyInsertIdx
  rw [if_neg (show ¬(i < 0) by omega), Nat.min_eq_right hl]
  simp

theorem assignAtom_miss (st : PState) (molecules : List Nat) (r : RawRec)
    (h : pyGet? molecules r.molId = none) :
    assignAtom st molecules r =
      (⟨st.mols ++ [⟨r.molId, st.lists.length⟩], st.lists ++ [[st.nextTag]],
        st.nextTag + 1⟩,
       pyInsertIdx molecules (r.molId + 1) st.mols.length,
       ⟨st.nextTag, r.name, r.serial, r.x, r.y, r.z, st.mols.length⟩) := by
  unfold assignAtom freshTag allocList allocMol appendTag
  rw [h]
  simp [getD_concat_length, set_concat_length]

theorem assignAtom_hit (st : PState) (molecules : List Nat) (r : RawRec)
    (mref : Nat) (md : MolData)
    (h : pyGet? molecules r.molId = some mref)
    (hmd : st.mols.get? mref = some md) :
    assignAtom st molecules r =
      (⟨st.mols,
        st.lists.set md.atomsRef (st.lists.getD md.atomsRef [] ++ [st.nextTag]),
        st.nextTag + 1⟩,
       molecules,
       ⟨st.nextTag, r.name, r.serial, r.x, r.y, r.z, mref⟩) := by
  unfold assignAtom freshTag appendTag
  rw [h]
  have hmd' : st.mols[mref]? = some md := by
    rw [← List.get?_eq_getElem?]
    exact hmd
  simp [hmd']

theorem buildFrameAux_cons_ok (st : PState) (fr : Frame) (a : String)
    (rest : List String) (p : PState × Frame)
    (h : buildStep st fr a = Except.ok p) :
    buildFrameAux st fr (a :: rest) = buildFrameAux p.1 p.2 rest := by
  simp only [buildFrameAux]
  rw [h]

/-- C10, confirmed: with molecule id 2 arriving before molecule id 1, the
lookup is positional — the id-1 atom is appended to the already-present
id-2 molecule sitting at sequence position 1, both atoms' back-references
point at that molecule, no molecule with id 1 is ever created during the
build, and the positional index 1 no longer equals the molecule's own
id 2. -/
theorem build_out_of_order (st : PState) (num : Int) (l1 l2 : String) (r1 r2 : RawRec)
    (h1 : atomRec? l1 = some r1) (h2 : atomRec? l2 = some r2)
    (hm1 : r1.molId = 2) (hm2 : r2.molId = 1) :
    ∃ st' f mref md,
      buildFrame st num [l1, l2] = Except.ok (st', f) ∧
      f.molecules.length = 2 ∧
      f.molecules.get? 1 = some mref ∧
      st'.mols.get? mref = some md ∧
      md.idx = 2 ∧
      (∀ a ∈ f.atoms, a.molecule = mref) ∧
      molListAt st' mref = f.atoms.map AtomBond.tag ∧
      (∀ m ∈ st'.mols.drop st.mols.length, m.idx ≠ 1) ∧
      molIdxAt st' f 1 ≠ some 1 := by
  obtain ⟨hp1, ht1⟩ := atomRec?_eq_some h1
  obtain ⟨hp2, ht2⟩ := atomRec?_eq_some h2
  refine ⟨⟨st.mols ++ [⟨0, 0⟩, ⟨2, st.lists.length⟩],
          st.lists ++ [[st.nextTag, st.nextTag + 1]], st.nextTag + 2⟩,
        ⟨num, [⟨st.nextTag, r1.name, r1.serial, r1.x, r1.y, r1.z, st.mols.length + 1⟩,
               ⟨st.nextTag + 1, r2.name, r2.serial, r2.x, r2.y, r2.z, st.mols.length + 1⟩],
         [st.mols.length, st.mols.length + 1]⟩,
        st.mols.length + 1, ⟨2, st.lists.length⟩, ?_, rfl, rfl, ?_, rfl, ?_, ?_, ?_, ?_⟩
  · -- the run of the two-line build
    have hga1 : pyGet? [st.mols.length] r1.molId = none := by
      rw [hm1, show (2 : Int) = ((2 : Nat) : Int) from rfl, pyGet?_natCast]
      rfl
    have a1 := assignAtom_miss ⟨st.mols ++ [⟨0, 0⟩], st.lists, st.nextTag⟩
      [st.mols.length] r1 hga1
    have s1 : buildStep ⟨st.mols ++ [⟨0, 0⟩], st.lists, st.nextTag⟩
        ⟨num, [], [st.mols.length]⟩ l1 =
        Except.ok (⟨st.mols ++ [⟨0, 0⟩, ⟨2, st.lists.length⟩],
            st.lists ++ [[st.nextTag]], st.nextTag + 1⟩,
          ⟨num, [⟨st.nextTag, r1.name, r1.serial, r1.x, r1.y, r1.z, st.mols.length + 1⟩],
           [st.mols.length, st.mols.length + 1]⟩) := by
      rw [buildStep_of_atomRec h1, a1]
      rw [hm1, pyInsert_ge _ _ _ (by omega) (by simp)]
      simp
    have hga2 : pyGet? [st.mols.length, st.mols.length + 1] r2.molId =
        some (st.mols.length + 1) := by
      rw [hm2, show (1 : Int) = ((1 : Nat) : Int) from rfl, pyGet?_natCast]
      rfl
    have hmd2 : (⟨st.mols ++ [⟨0, 0⟩, ⟨2, st.lists.length⟩],
        st.lists ++ [[st.nextTag]], st.nextTag + 1⟩ : PState).mols.get?
          (st.mols.length + 1) = some ⟨2, st.lists.length⟩ :=
      get?_append2_right st.mols _ _
    have a2 := assignAtom_hit ⟨st.mols ++ [⟨0, 0⟩, ⟨2, st.lists.length⟩],
        st.lists ++ [[st.nextTag]], st.nextTag + 1⟩
      [st.mols.length, st.mols.length + 1] r2 (st.mols.length + 1)
      ⟨2, st.lists.length⟩ hga2 hmd2
    have s2 : buildStep ⟨st.mols ++ [⟨0, 0⟩, ⟨2, st.lists.length⟩],
          st.lists ++ [[st.nextTag]], st.nextTag + 1⟩
        ⟨num, [⟨st.nextTag, r1.name, r1.serial, r1.x, r1.y, r1.z, st.mols.length + 1⟩],
         [st.mols.length, st.mols.length + 1]⟩ l2 =
        Except.ok (⟨st.mols ++ [⟨0, 0⟩, ⟨2, st.lists.length⟩],
            st.lists ++ [[st.nextTag, st.nextTag + 1]], st.nextTag + 2⟩,
          ⟨num, [⟨st.nextTag, r1.name, r1.serial, r1.x, r1.y, r1.z, st.mols.length + 1⟩,
                 ⟨st.nextTag + 1, r2.name, r2.serial, r2.x, r2.y, r2.z, st.mols.length + 1⟩],
           [st.mols.length, st.mols.length + 1]⟩) := by
      rw [buildStep_of_atomRec h2, a2]
      simp [getD_concat_length, set_concat_length]
    have e0 : buildFrame st num [l1, l2] = buildFrameAux
        ⟨st.mols ++ [⟨0, 0⟩], st.lists, st.nextTag⟩
        ⟨num, [], [st.mols.length]⟩ [l1, l2] := rfl
    rw [e0, buildFrameAux_cons_ok _ _ _ _ _ s1, buildFrameAux_cons_ok _ _ _ _ _ s2]
    rfl
  · exact get?_append2_right st.mols _ _
  · intro a ha
    simp only [List.mem_cons, List.not_mem_nil, or_false] at ha
    rcases ha with h | h <;> rw [h]
  · unfold molListAt
    have hg : (st.mols ++ [⟨0, 0⟩, (⟨2, st.lists.length⟩ : MolData)]).getD
        (st.mols.length + 1) ⟨0, 0⟩ = ⟨2, st.lists.length⟩ := by
      have : (st.mols ++ [⟨0, 0⟩, (⟨2, st.lists.length⟩ : MolData)]).getD
          (st.mols.length + 1) ⟨0, 0⟩ =
          ((st.mols ++ [⟨0, 0⟩, (⟨2, st.lists.length⟩ : MolData)]).get?
            (st.mols.length + 1)).getD ⟨0, 0⟩ := rfl
      rw [this, get?_append2_right]
      rfl
    rw [hg]
    have hl : (st.lists ++ [[st.nextTag, st.nextTag + 1]]).getD st.lists.length [] =
        [st.nextTag, st.nextTag + 1] := getD_concat_length _ _ _
    rw [hl]
    rfl
  · intro m hm
    rw [List.drop_left] at hm
    simp only [List.mem_cons, List.not_mem_nil, or_false] at hm
    rcases hm with h | h <;> rw [h] <;> simp
  · unfold molIdxAt
    simp only [List.get?]
    rw [get?_append2_right]
    simp

/-- C10, witness: the concrete two-line frame with ids 2 then 1. -/
theorem build_out_of_order_witness :
    ∃ st' f mref md,
      buildFrame initState 0 [outOfOrderLines.get! 0, outOfOrderLines.get! 1] =
        Except.ok (st', f) ∧
      f.molecules.length = 2 ∧
      f.molecules.get? 1 = some mref ∧
      st'.mols.get? mref = some md ∧
      md.idx = 2 ∧
      (∀ a ∈ f.atoms, a.molecule = mref) ∧
      molListAt st' mref = f.atoms.map AtomBond.tag ∧
      (∀ m ∈ st'.mols.drop initState.mols.length, m.idx ≠ 1) ∧
      molIdxAt st' f 1 ≠ some 1 :=
  build_out_of_order initState 0 _ _
    ⟨"ATOM", 1, "H1", 2, ⟨10, -1⟩, ⟨20, -1⟩, ⟨30, -1⟩⟩
    ⟨"ATOM", 2, "H2", 1, ⟨10, -1⟩, ⟨20, -1⟩, ⟨30, -1⟩⟩
    (by decide) (by decide) (by decide) (by decide)

theorem buildStep_num (st : PState) (fr : Frame) (a : String) (p : PState × Frame)
    (h : buildStep st fr a = Except.ok p) : p.2.num = fr.num := by
  unfold buildStep at h
  split at h
  · cases h
  · split at h
    · injection h with h2
      rw [← h2]
    · cases h

theorem buildFrameAux_num (ls : List String) :
    ∀ (st : PState) (fr : Frame) (st' : PState) (fr' : Frame),
    buildFrameAux st fr ls = Except.ok (st', fr') → fr'.num = fr.num := by
  induction ls with
  | nil =>
    intro st fr st' fr' h
    injection h with h2
    exact (congrArg (fun q => q.2.num) h2).symm
  | cons a rest ih =>
    intro st fr st' fr' h
    simp only [buildFrameAux] at h
    cases hs : buildStep st fr a with
    | error e => rw [hs] at h; cases h
    | ok p =>
      rw [hs] at h
      exact (ih p.1 p.2 st' fr' h).trans (buildStep_num st fr a p hs)

theorem buildFrame_num (st : PState) (num : Int) (ls : List String)
    (st' : PState) (fr' : Frame)
    (h : buildFrame st num ls = Except.ok (st', fr')) : fr'.num = num :=
  buildFrameAux_num ls _ _ _ _ h

theorem readLoop_cons (st : PState) (frames : List Frame) (buf : List String)
    (n : Nat) (l : String) (ls : List String) :
    readLoop st frames buf n (l :: ls) =
      (if pstrip l = "END" then
        match buildFrame st (Int.ofNat n) buf with
        | Except.error e => Except.error e
        | Except.ok p => readLoop p.1 (frames ++ [p.2]) [] (n + 1) ls
      else readLoop st frames (buf ++ [pstrip l]) n ls) := rfl

theorem readLoop_spec (ls : List String) :
    ∀ (st : PState) (frames : List Frame) (buf : List String) (n : Nat)
      (st' : PState) (frames' : List Frame),
    readLoop st frames buf n ls = Except.ok (st', frames') →
    n = frames.length →
    (∀ i f, frames.get? i = some f → f.num = Int.ofNat i) →
    frames'.length = frames.length + ls.countP (fun l => pstrip l == "END") ∧
    (∀ i f, frames'.get? i = some f → f.num = Int.ofNat i) := by
  induction ls with
  | nil =>
    intro st frames buf n st' frames' h hn hnum
    injection h with h2
    have hf : frames' = frames := (congrArg Prod.snd h2).symm
    subst hf
    simpa using hnum
  | cons l ls ih =>
    intro st frames buf n st' frames' h hn hnum
    rw [readLoop_cons] at h
    by_cases he : pstrip l = "END"
    · rw [if_pos he] at h
      cases hb : buildFrame st (Int.ofNat n) buf with
      | error e => rw [hb] at h; cases h
      | ok p =>
        rw [hb] at h
        have hlen : n + 1 = (frames ++ [p.2]).length := by
          rw [List.length_append, List.length_singleton, hn]
        have hnum' : ∀ i f, (frames ++ [p.2]).get? i = some f → f.num = Int.ofNat i := by
          intro i f hif
          by_cases hi : i < frames.length
          · rw [List.get?_append hi] at hif
            exact hnum i f hif
          · have hi2 : i = frames.length := by
              have hlt : i < (frames ++ [p.2]).length := by
                by_contra hcon
                rw [List.get?_eq_none.2 (by omega)] at hif
                cases hif
              rw [List.length_append, List.length_singleton] at hlt
              omega
            subst hi2
            rw [List.get?_concat_length] at hif
            injection hif with hif2
            rw [← hif2, buildFrame_num st (Int.ofNat n) buf p.1 p.2 (by rw [hb]), hn]
        obtain ⟨hl, hn2⟩ := ih p.1 (frames ++ [p.2]) [] (n + 1) st' frames' h hlen hnum'
        constructor
        · rw [hl, List.length_append, List.length_singleton]
          have hc : (l :: ls).countP (fun l => pstrip l == "END") =
              ls.countP (fun l => pstrip l == "END") + 1 := by
            rw [List.countP_cons]
            simp [he]
          rw [hc]
          omega
        · exact hn2
    · rw [if_neg he] at h
      obtain ⟨hl, hn2⟩ := ih st frames (buf ++ [pstrip l]) n st' frames' h hn hnum
      constructor
      · rw [hl]
        have hc : (l :: ls).countP (fun l => pstrip l == "END") =
            ls.countP (fun l => pstrip l == "END") := by
          rw [List.countP_cons]
          simp [he]
        rw [hc]
      · exact hn2

theorem read_pdb_ok_shape (lines : List String) (frames : List Frame) (st' : PState)
    (h : read_pdb lines = Except.ok (true, frames, st')) :
    readLoop initState [] [] 0 (lines.drop 1) = Except.ok (st', frames) := by
  unfold read_pdb at h
  cases hv : valid_pdb lines with
  | error e =>
    rw [hv] at h
    cases h
  | ok b =>
    rw [hv] at h
    cases b with
    | false =>
      have h2 : (Except.ok (false, [], initState) :
          Except PErr (Bool × List Frame × PState)) = Except.ok (true, frames, st') := h
      simp at h2
    | true =>
      have h2 : (match readLoop initState [] [] 0 (lines.drop 1) with
          | Except.error e => Except.error e
          | Except.ok p => Except.ok (true, p.2, p.1)) =
          (Except.ok (true, frames, st') : Except PErr (Bool × List Frame × PState)) := h
      cases hr : readLoop initState [] [] 0 (lines.drop 1) with
      | error e =>
        rw [hr] at h2
        cases h2
      | ok p =>
        rw [hr] at h2
        injection h2 with h3
        have hfr : p.2 = frames := congrArg (fun q => q.2.1) h3
        have hst : p.1 = st' := congrArg (fun q => q.2.2) h3
        rw [← hfr, ← hst]

/-- C4, confirmed: for a successfully read file the number of returned
frames equals the number of `END` sentinel lines among the lines after
the unconditionally skipped first line (trailing atom lines after the
last sentinel never become a frame), and the frames carry sequential
0-based frame numbers in file order. -/
theorem read_frame_count (lines : List String) (frames : List Frame) (st' : PState)
    (h : read_pdb lines = Except.ok (true, frames, st')) :
    frames.length = (lines.drop 1).countP (fun l => pstrip l == "END") ∧
    ∀ i f, frames.get? i = some f → f.num = Int.ofNat i := by
  have hr := read_pdb_ok_shape lines frames st' h
  have hs := readLoop_spec (lines.drop 1) initState [] [] 0 st' frames hr rfl
    (by intro i f hif; simp at hif)
  simpa using hs

/-- C4, witness: the two-frame demo file, whose second frame is followed
by nothing and whose `END` count is 2. -/
theorem read_frame_count_witness :
    (readFramesOf demoLines).length =
      (demoLines.drop 1).countP (fun l => pstrip l == "END") ∧
    ∀ i f, (readFramesOf demoLines).get? i = some f → f.num = Int.ofNat i :=
  read_frame_count demoLines (readFramesOf demoLines) (readStateOf demoLines) (by rfl)

theorem get?_some_lt {α : Type} {l : List α} {n : Nat} {a : α}
    (h : l.get? n = some a) : n < l.length := by
  by_contra hc
  rw [List.get?_eq_none.2 (by omega)] at h
  cases h

theorem molIds_nil : molIds [] = [] := rfl

theorem molIds_cons_of_some {l : String} {r : RawRec} (h : atomRec? l = some r)
    (ls : List String) : molIds (l :: ls) = r.molId :: molIds ls := by
  unfold molIds
  rw [List.filterMap_cons]
  simp [h]

theorem firstDedupAux_cons (seen : List Int) (d : Int) (ds : List Int) :
    firstDedupAux seen (d :: ds) =
      (if d ∈ seen then firstDedupAux seen ds else d :: firstDedupAux (d :: seen) ds) := rfl

theorem idRange_succ_of_lt {m k : Nat} (h : m < k) :
    idRange (m + 1) (k - m) = ((m + 1 : Nat) : Int) :: idRange (m + 2) (k - (m + 1)) := by
  have he : k - m = (k - (m + 1)) + 1 := by omega
  rw [he]
  rfl

theorem idRange_get? (a k j : Nat) (h : j < k) :
    (idRange a k).get? j = some (((a + j : Nat) : Int)) := by
  induction k generalizing a j with
  | zero => omega
  | succ k ih =>
    have hc : idRange a (k + 1) = ((a : Nat) : Int) :: idRange (a + 1) k := rfl
    rw [hc]
    cases j with
    | zero => simp
    | succ j =>
      have := ih (a + 1) j (by omega)
      simp only [List.get?]
      rw [this]
      have he : a + 1 + j = a + (j + 1) := by omega
      rw [he]

theorem idRange_length (a k : Nat) : (idRange a k).length = k := by
  induction k generalizing a with
  | zero => rfl
  | succ k ih =>
    have hc : idRange a (k + 1) = ((a : Nat) : Int) :: idRange (a + 1) k := rfl
    rw [hc, List.length_cons, ih]

theorem molIdx_map_of_pointwise (st : PState) (ms : List Nat) (k : Nat)
    (hlen : ms.length = k + 1)
    (hp : ∀ j, j < k + 1 → ∃ mr md, ms.get? j = some mr ∧
        st.mols.get? mr = some md ∧ md.idx = (j : Int)) :
    ms.map (fun mr => (st.mols.get? mr).map MolData.idx) = (idRange 0 (k + 1)).map some := by
  apply List.ext
  intro n
  rw [List.get?_map, List.get?_map]
  by_cases hn : n < k + 1
  · obtain ⟨mr, md, h1, h2, h3⟩ := hp n hn
    rw [h1, idRange_get? 0 (k + 1) n hn]
    have h2' : st.mols[mr]? = some md := by
      rw [← List.get?_eq_getElem?]
      exact h2
    simp [h2', h3]
  · rw [List.get?_eq_none.2 (by omega), List.get?_eq_none.2 (by rw [idRange_length]; omega)]
    rfl

theorem assign_loop_dense (atom_strs : List String) :
    ∀ (st : PState) (fr : Frame) (m k : Nat) (seen : List Int),
    m ≤ k →
    fr.molecules.length = m + 1 →
    (∀ j, j < m + 1 → ∃ mr md, fr.molecules.get? j = some mr ∧
        st.mols.get? mr = some md ∧ md.idx = (j : Int)) →
    (∀ d : Int, d ∈ seen ↔ 1 ≤ d ∧ d ≤ (m : Int)) →
    (∀ l ∈ atom_strs, (atomRec? l).isSome = true) →
    firstDedupAux seen (molIds atom_strs) = idRange (m + 1) (k - m) →
    ∃ st' fr', buildFrameAux st fr atom_strs = Except.ok (st', fr') ∧
      fr'.molecules.length = k + 1 ∧
      (∀ j, j < k + 1 → ∃ mr md, fr'.molecules.get? j = some mr ∧
          st'.mols.get? mr = some md ∧ md.idx = (j : Int)) := by
  induction atom_strs with
  | nil =>
    intro st fr m k seen hmk hlen hmols hseen hw hd
    rw [molIds_nil] at hd
    have h0 : firstDedupAux seen [] = [] := rfl
    rw [h0] at hd
    have hk : k = m := by
      by_contra hne
      rw [idRange_succ_of_lt (by omega)] at hd
      cases hd
    subst hk
    exact ⟨st, fr, rfl, hlen, hmols⟩
  | cons l rest ih =>
    intro st fr m k seen hmk hlen hmols hseen hw hd
    obtain ⟨r, hr⟩ := Option.isSome_iff_exists.1 (hw l (by simp))
    rw [molIds_cons_of_some hr rest, firstDedupAux_cons] at hd
    by_cases hin : r.molId ∈ seen
    · -- an id seen before: the positional lookup succeeds
      rw [if_pos hin] at hd
      obtain ⟨h1d, h2d⟩ := (hseen r.molId).1 hin
      obtain ⟨mr, md, hget, hmd, hidx⟩ := hmols r.molId.toNat (by omega)
      have hpg : pyGet? fr.molecules r.molId = some mr := by
        rw [show r.molId = ((r.molId.toNat : Nat) : Int) by omega, pyGet?_natCast]
        exact hget
      have hstep : buildStep st fr l = Except.ok
          (⟨st.mols,
            st.lists.set md.atomsRef (st.lists.getD md.atomsRef [] ++ [st.nextTag]),
            st.nextTag + 1⟩,
           ⟨fr.num,
            fr.atoms ++ [⟨st.nextTag, r.name, r.serial, r.x, r.y, r.z, mr⟩],
            fr.molecules⟩) := by
        rw [buildStep_of_atomRec hr, assignAtom_hit st fr.molecules r mr md hpg hmd]
      have hrun := buildFrameAux_cons_ok st fr l rest _ hstep
      obtain ⟨st', fr', he, hlen', hmols'⟩ :=
        ih ⟨st.mols,
            st.lists.set md.atomsRef (st.lists.getD md.atomsRef [] ++ [st.nextTag]),
            st.nextTag + 1⟩
          ⟨fr.num, fr.atoms ++ [⟨st.nextTag, r.name, r.serial, r.x, r.y, r.z, mr⟩],
            fr.molecules⟩
          m k seen hmk hlen hmols hseen (fun q hq => hw q (by simp [hq])) hd
      exact ⟨st', fr', hrun.trans he, hlen', hmols'⟩
    · -- a new id: it must be the next dense id m + 1
      rw [if_neg hin] at hd
      have hmlt : m < k := by
        by_contra hge
        have hkm : k = m := by omega
        subst hkm
        rw [Nat.sub_self] at hd
        cases hd
      rw [idRange_succ_of_lt hmlt] at hd
      injection hd with hd1 hd2
      have hpg : pyGet? fr.molecules r.molId = none := by
        rw [hd1, pyGet?_natCast]
        exact List.get?_eq_none.2 (by omega)
      have hins : pyInsertIdx fr.molecules (r.molId + 1) st.mols.length =
          fr.molecules ++ [st.mols.length] := by
        apply pyInsert_ge
        · rw [hd1]; omega
        · rw [hd1]
          have ht : (((m + 1 : Nat) : Int) + 1).toNat = m + 2 := by omega
          rw [ht]
          omega
      have hstep : buildStep st fr l = Except.ok
          (⟨st.mols ++ [⟨r.molId, st.lists.length⟩], st.lists ++ [[st.nextTag]],
            st.nextTag + 1⟩,
           ⟨fr.num,
            fr.atoms ++ [⟨st.nextTag, r.name, r.serial, r.x, r.y, r.z, st.mols.length⟩],
            fr.molecules ++ [st.mols.length]⟩) := by
        rw [buildStep_of_atomRec hr, assignAtom_miss st fr.molecules r hpg, hins]
      have hrun := buildFrameAux_cons_ok st fr l rest _ hstep
      have hlen2 : (fr.molecules ++ [st.mols.length]).length = (m + 1) + 1 := by
        rw [List.length_append, List.length_singleton, hlen]
      have hmols2 : ∀ j, j < (m + 1) + 1 →
          ∃ mr md, (fr.molecules ++ [st.mols.length]).get? j = some mr ∧
            (st.mols ++ [(⟨r.molId, st.lists.length⟩ : MolData)]).get? mr = some md ∧
            md.idx = (j : Int) := by
        intro j hj
        by_cases hjm : j < m + 1
        · obtain ⟨mr, md, h1, h2, h3⟩ := hmols j hjm
          refine ⟨mr, md, ?_, ?_, h3⟩
          · rw [List.get?_append (by omega)]
            exact h1
          · rw [List.get?_append (get?_some_lt h2)]
            exact h2
        · have hj2 : j = m + 1 := by omega
          subst hj2
          refine ⟨st.mols.length, ⟨r.molId, st.lists.length⟩, ?_, ?_, ?_⟩
          · rw [show m + 1 = fr.molecules.length from hlen.symm, List.get?_concat_length]
          · rw [List.get?_concat_length]
          · rw [hd1]
      have hseen2 : ∀ d : Int, d ∈ (r.molId :: seen) ↔ 1 ≤ d ∧ d ≤ ((m + 1 : Nat) : Int) := by
        intro d
        rw [List.mem_cons, hseen d, hd1]
        omega
      obtain ⟨st', fr', he, hlen', hmols'⟩ :=
        ih ⟨st.mols ++ [⟨r.molId, st.lists.length⟩], st.lists ++ [[st.nextTag]],
            st.nextTag + 1⟩
          ⟨fr.num,
            fr.atoms ++ [⟨st.nextTag, r.name, r.serial, r.x, r.y, r.z, st.mols.length⟩],
            fr.molecules ++ [st.mols.length]⟩
          (m + 1) k (r.molId :: seen) hmlt hlen2 hmols2 hseen2
          (fun q hq => hw q (by simp [hq])) hd2
      exact ⟨st', fr', hrun.trans he, hlen', hmols'⟩

/-- C1, confirmed: when the molecule ids of a frame's atom lines are
exactly 1, 2, ..., k in first-appearance order, the finished frame's
molecule sequence has length k + 1 and, reading ids through the store,
the molecule at each position j of the sequence has id j (the sentinel
at 0, then each molecule at the position equal to its own id, by the
insert-at-molecule_id+1 growth rule). -/
theorem build_dense_ids (st : PState) (num : Int) (atom_strs : List String) (k : Nat)
    (hw : ∀ l ∈ atom_strs, (atomRec? l).isSome = true)
    (hd : firstDedup (molIds atom_strs) = idRange 1 k) :
    ∃ st' f, buildFrame st num atom_strs = Except.ok (st', f) ∧
      f.molecules.length = k + 1 ∧
      f.molecules.map (fun mr => (st'.mols.get? mr).map MolData.idx) =
        (idRange 0 (k + 1)).map some := by
  have hmols0 : ∀ j, j < 0 + 1 →
      ∃ mr md, ([st.mols.length] : List Nat).get? j = some mr ∧
        (st.mols ++ [(⟨0, 0⟩ : MolData)]).get? mr = some md ∧ md.idx = (j : Int) := by
    intro j hj
    have hj0 : j = 0 := by omega
    subst hj0
    exact ⟨st.mols.length, ⟨0, 0⟩, rfl, List.get?_concat_length st.mols ⟨0, 0⟩, rfl⟩
  have hseen0 : ∀ d : Int, d ∈ ([] : List Int) ↔ 1 ≤ d ∧ d ≤ ((0 : Nat) : Int) := by
    intro d
    simp
    omega
  have hd0 : firstDedupAux [] (molIds atom_strs) = idRange (0 + 1) (k - 0) := by
    rw [Nat.sub_zero]
    exact hd
  obtain ⟨st', fr', he, hlen', hmols'⟩ :=
    assign_loop_dense atom_strs ⟨st.mols ++ [⟨0, 0⟩], st.lists, st.nextTag⟩
      ⟨num, [], [st.mols.length]⟩ 0 k [] (Nat.zero_le k) rfl hmols0 hseen0 hw hd0
  refine ⟨st', fr', he, hlen', molIdx_map_of_pointwise st' fr'.molecules k hlen' hmols'⟩

/-- C1, witness: three lines with molecule ids 1, 2, 1 — first-appearance
order exactly 1, 2 — give a frame with 3 molecule entries with ids
0, 1, 2 at positions 0, 1, 2. -/
theorem build_dense_ids_witness :
    ∃ st' f, buildFrame initState 0 [atomLine1, atomLine2, atomLine1b] =
        Except.ok (st', f) ∧
      f.molecules.length = 2 + 1 ∧
      f.molecules.map (fun mr => (st'.mols.get? mr).map MolData.idx) =
        (idRange 0 (2 + 1)).map some :=
  build_dense_ids initState 0 [atomLine1, atomLine2, atomLine1b] 2
    (by decide) (by decide)

theorem assignAtom_mols_hit (st : PState) (ms : List Nat) (r : RawRec)
    (mref : Nat) (hg : pyGet? ms r.molId = some mref) :
    (assignAtom st ms r).1.mols = st.mols := by
  unfold assignAtom freshTag appendTag
  rw [hg]

theorem assignAtom_mols_miss (st : PState) (ms : List Nat) (r : RawRec)
    (hg : pyGet? ms r.molId = none) :
    (assignAtom st ms r).1.mols = st.mols ++ [⟨r.molId, st.lists.length⟩] := by
  unfold assignAtom freshTag allocList allocMol appendTag
  rw [hg]

theorem assignAtom_mols_mono (st : PState) (ms : List Nat) (r : RawRec)
    (n : Nat) (md : MolData) (h : st.mols.get? n = some md) :
    (assignAtom st ms r).1.mols.get? n = some md := by
  cases hg : pyGet? ms r.molId with
  | some mref =>
    rw [assignAtom_mols_hit st ms r mref hg]
    exact h
  | none =>
    rw [assignAtom_mols_miss st ms r hg, List.get?_append (get?_some_lt h)]
    exact h

theorem buildStep_mols_mono (st : PState) (fr : Frame) (a : String)
    (p : PState × Frame) (h : buildStep st fr a = Except.ok p)
    (n : Nat) (md : MolData) (hm : st.mols.get? n = some md) :
    p.1.mols.get? n = some md := by
  unfold buildStep at h
  split at h
  · cases h
  · split at h
    · injection h with h2
      rw [← h2]
      exact assignAtom_mols_mono st fr.molecules _ n md hm
    · cases h

theorem buildFrameAux_mols_mono (ls : List String) :
    ∀ (st : PState) (fr : Frame) (st' : PState) (fr' : Frame),
    buildFrameAux st fr ls = Except.ok (st', fr') →
    ∀ n md, st.mols.get? n = some md → st'.mols.get? n = some md := by
  induction ls with
  | nil =>
    intro st fr st' fr' h n md hm
    injection h with h2
    have hst : st = st' := congrArg Prod.fst h2
    subst hst
    exact hm
  | cons a rest ih =>
    intro st fr st' fr' h n md hm
    simp only [buildFrameAux] at h
    cases hs : buildStep st fr a with
    | error e => rw [hs] at h; cases h
    | ok p =>
      rw [hs] at h
      exact ih p.1 p.2 st' fr' h n md (buildStep_mols_mono st fr a p hs n md hm)

theorem pyInsert_get?_zero {α : Type} (l : List α) (i : Int) (a : α) (x : α)
    (h0 : l.get? 0 = some x) (hi : 0 ≤ i) (hi1 : 1 ≤ i.toNat) :
    (pyInsertIdx l i a).get? 0 = some x := by
  simp only [pyInsertIdx]
  rw [if_neg (show ¬i < 0 by omega)]
  cases l with
  | nil => cases h0
  | cons y l' =>
    injection h0 with h0'
    subst h0'
    obtain ⟨j, hjj⟩ : ∃ j, min i.toNat (y :: l').length = j + 1 := by
      have h1 : 1 ≤ min i.toNat (y :: l').length := by
        simp only [List.length_cons]
        omega
      exact ⟨min i.toNat (y :: l').length - 1, by omega⟩
    rw [hjj]
    rfl

theorem pyInsert_get?_pos {α : Type} (l : List α) (i : Int) (a : α) (j' : Nat) (mr : α)
    (hj : 1 ≤ j') (hi : 0 ≤ i) (hi1 : 1 ≤ i.toNat) (hl : 1 ≤ l.length)
    (h : (pyInsertIdx l i a).get? j' = some mr) :
    mr = a ∨ ∃ j'', 1 ≤ j'' ∧ l.get? j'' = some mr := by
  simp only [pyInsertIdx] at h
  rw [if_neg (show ¬i < 0 by omega)] at h
  have htl : (l.take (min i.toNat l.length)).length = min i.toNat l.length := by
    rw [List.length_take]
    exact Nat.min_eq_left (Nat.min_le_right _ _)
  by_cases hc : j' < min i.toNat l.length
  · rw [List.get?_append (by rw [htl]; omega), List.get?_take hc] at h
    exact Or.inr ⟨j', hj, h⟩
  · rw [List.get?_append_right (by rw [htl]; omega), htl] at h
    cases hd : j' - min i.toNat l.length with
    | zero =>
      rw [hd] at h
      injection h with h2
      exact Or.inl h2.symm
    | succ d =>
      rw [hd] at h
      simp only [List.get?] at h
      rw [List.get?_drop] at h
      exact Or.inr ⟨min i.toNat l.length + d, by omega, h⟩

theorem buildAux_sentinel_safe (ls : List String) :
    ∀ (st : PState) (fr : Frame) (st' : PState) (fr' : Frame),
    (∀ l ∈ ls, ∃ r, atomRec? l = some r ∧ 1 ≤ r.molId) →
    buildFrameAux st fr ls = Except.ok (st', fr') →
    st.lists.get? 0 = some [] →
    (∃ r0, fr.molecules.get? 0 = some r0 ∧ st.mols.get? r0 = some ⟨0, 0⟩) →
    (∀ j mr, 1 ≤ j → fr.molecules.get? j = some mr →
        ∃ md, st.mols.get? mr = some md ∧ 1 ≤ md.atomsRef) →
    st'.lists.get? 0 = some [] ∧
    (∃ r0, fr'.molecules.get? 0 = some r0 ∧ st'.mols.get? r0 = some ⟨0, 0⟩) ∧
    (∀ j mr, 1 ≤ j → fr'.molecules.get? j = some mr →
        ∃ md, st'.mols.get? mr = some md ∧ 1 ≤ md.atomsRef) := by
  induction ls with
  | nil =>
    intro st fr st' fr' hws h hl0 hsent hpos
    injection h with h2
    have hst : st = st' := congrArg Prod.fst h2
    have hfr : fr = fr' := congrArg Prod.snd h2
    subst hst
    subst hfr
    exact ⟨hl0, hsent, hpos⟩
  | cons l rest ih =>
    intro st fr st' fr' hws h hl0 hsent hpos
    obtain ⟨r, hr, hr1⟩ := hws l (by simp)
    simp only [buildFrameAux] at h
    rw [buildStep_of_atomRec hr] at h
    obtain ⟨r0, hr0, hr0m⟩ := hsent
    cases hg : pyGet? fr.molecules r.molId with
    | some mref =>
      -- the looked-up position is at index molId ≥ 1, whose list is not the shared one
      have hmref : fr.molecules.get? r.molId.toNat = some mref := by
        rw [show r.molId = ((r.molId.toNat : Nat) : Int) by omega, pyGet?_natCast] at hg
        exact hg
      obtain ⟨md, hmd, hmd1⟩ := hpos r.molId.toNat mref (by omega) hmref
      have ha := assignAtom_hit st fr.molecules r mref md hg hmd
      rw [ha] at h
      refine ih ⟨st.mols,
          st.lists.set md.atomsRef (st.lists.getD md.atomsRef [] ++ [st.nextTag]),
          st.nextTag + 1⟩
        ⟨fr.num, fr.atoms ++ [⟨st.nextTag, r.name, r.serial, r.x, r.y, r.z, mref⟩],
          fr.molecules⟩
        st' fr' (fun q hq => hws q (by simp [hq])) h ?_ ?_ ?_
      · -- the shared list at address 0 is untouched: the set hits index ≥ 1
        show (st.lists.set md.atomsRef (st.lists.getD md.atomsRef [] ++ [st.nextTag])).get? 0 =
          some []
        rw [List.get?_set_ne _ _ (by omega)]
        exact hl0
      · exact ⟨r0, hr0, hr0m⟩
      · intro j mr hj1 hjm
        obtain ⟨md2, hmd2, hmd21⟩ := hpos j mr hj1 hjm
        exact ⟨md2, hmd2, hmd21⟩
    | none =>
      have ha := assignAtom_miss st fr.molecules r hg
      rw [ha] at h
      have hlen0 : 0 < st.lists.length := get?_some_lt hl0
      refine ih ⟨st.mols ++ [⟨r.molId, st.lists.length⟩], st.lists ++ [[st.nextTag]],
          st.nextTag + 1⟩
        ⟨fr.num,
          fr.atoms ++ [⟨st.nextTag, r.name, r.serial, r.x, r.y, r.z, st.mols.length⟩],
          pyInsertIdx fr.molecules (r.molId + 1) st.mols.length⟩
        st' fr' (fun q hq => hws q (by simp [hq])) h ?_ ?_ ?_
      · show (st.lists ++ [[st.nextTag]]).get? 0 = some []
        rw [List.get?_append hlen0]
        exact hl0
      · refine ⟨r0, ?_, ?_⟩
        · show (pyInsertIdx fr.molecules (r.molId + 1) st.mols.length).get? 0 = some r0
          exact pyInsert_get?_zero fr.molecules (r.molId + 1) st.mols.length r0 hr0
            (by omega) (by omega)
        · show (st.mols ++ [(⟨r.molId, st.lists.length⟩ : MolData)]).get? r0 = some ⟨0, 0⟩
          rw [List.get?_append (get?_some_lt hr0m)]
          exact hr0m
      · intro j mr hj1 hjm
        have hmem := pyInsert_get?_pos fr.molecules (r.molId + 1) st.mols.length j mr
          hj1 (by omega) (by omega) (by have := get?_some_lt hr0; omega) hjm
        cases hmem with
        | inl heq =>
          subst heq
          refine ⟨⟨r.molId, st.lists.length⟩, ?_, ?_⟩
          · exact List.get?_concat_length st.mols _
          · show 1 ≤ st.lists.length
            omega
        | inr hold =>
          obtain ⟨j'', hj''1, hj''⟩ := hold
          obtain ⟨md2, hmd2, hmd21⟩ := hpos j'' mr hj''1 hj''
          refine ⟨md2, ?_, hmd21⟩
          rw [List.get?_append (get?_some_lt hmd2)]
          exact hmd2

theorem readLoop_sentinels (ls : List String) :
    ∀ (st : PState) (frames : List Frame) (buf : List String) (n : Nat)
      (st' : PState) (frames' : List Frame),
    readLoop st frames buf n ls = Except.ok (st', frames') →
    (∀ l ∈ buf, ∃ r, atomRec? l = some r ∧ 1 ≤ r.molId) →
    (∀ l ∈ ls, pstrip l ≠ "END" → ∃ r, atomRec? (pstrip l) = some r ∧ 1 ≤ r.molId) →
    st.lists.get? 0 = some [] →
    (∀ f ∈ frames, ∃ r0, f.molecules.get? 0 = some r0 ∧ st.mols.get? r0 = some ⟨0, 0⟩) →
    st'.lists.get? 0 = some [] ∧
    (∀ f ∈ frames', ∃ r0, f.molecules.get? 0 = some r0 ∧
        st'.mols.get? r0 = some ⟨0, 0⟩) := by
  induction ls with
  | nil =>
    intro st frames buf n st' frames' h hbuf hls hl0 hfr
    injection h with h2
    have hst : st = st' := congrArg Prod.fst h2
    have hfr2 : frames = frames' := congrArg Prod.snd h2
    subst hst
    subst hfr2
    exact ⟨hl0, hfr⟩
  | cons l ls ih =>
    intro st frames buf n st' frames' h hbuf hls hl0 hfr
    rw [readLoop_cons] at h
    by_cases he : pstrip l = "END"
    · rw [if_pos he] at h
      cases hb : buildFrame st (Int.ofNat n) buf with
      | error e => rw [hb] at h; cases h
      | ok p =>
        rw [hb] at h
        -- unpack the build: sentinel allocation then the loop
        have hb2 : buildFrameAux ⟨st.mols ++ [⟨0, 0⟩], st.lists, st.nextTag⟩
            ⟨Int.ofNat n, [], [st.mols.length]⟩ buf = Except.ok (p.1, p.2) := hb
        have hsafe := buildAux_sentinel_safe buf
          ⟨st.mols ++ [⟨0, 0⟩], st.lists, st.nextTag⟩
          ⟨Int.ofNat n, [], [st.mols.length]⟩ p.1 p.2 hbuf hb2 hl0
          ⟨st.mols.length, rfl, List.get?_concat_length st.mols ⟨0, 0⟩⟩
          (by
            intro j mr hj1 hjm
            have : ([st.mols.length] : List Nat).get? j = none :=
              List.get?_eq_none.2 (by simp; omega)
            rw [this] at hjm
            cases hjm)
        obtain ⟨hl0', hsent', _⟩ := hsafe
        refine ih p.1 (frames ++ [p.2]) [] (n + 1) st' frames' h (by simp)
          (fun q hq => hls q (by simp [hq])) hl0' ?_
        intro f hf
        rw [List.mem_append] at hf
        cases hf with
        | inl hfo =>
          obtain ⟨r0, h1, h2⟩ := hfr f hfo
          refine ⟨r0, h1, ?_⟩
          have hmono1 : (⟨st.mols ++ [⟨0, 0⟩], st.lists, st.nextTag⟩ : PState).mols.get? r0 =
              some ⟨0, 0⟩ := by
            show (st.mols ++ [(⟨0, 0⟩ : MolData)]).get? r0 = some ⟨0, 0⟩
            rw [List.get?_append (get?_some_lt h2)]
            exact h2
          exact buildFrameAux_mols_mono buf _ _ p.1 p.2 hb2 r0 ⟨0, 0⟩ hmono1
        | inr hfn =>
          have : f = p.2 := by simpa using hfn
          subst this
          exact hsent'
    · rw [if_neg he] at h
      refine ih st frames (buf ++ [pstrip l]) n st' frames' h ?_
        (fun q hq => hls q (by simp [hq])) hl0 hfr
      intro q hq
      rw [List.mem_append] at hq
      cases hq with
      | inl hqo => exact hbuf q hqo
      | inr hqn =>
        have hq2 : q = pstrip l := by simpa using hqn
        subst hq2
        exact hls l (by simp) he

/-- C6, confirmed: for well-formed input (every buffered atom line a
well-shaped `ATOM` row with molecule id at least 1), every returned
frame's molecule sequence has at position 0 a sentinel molecule whose id
is 0 and whose atom list is empty. -/
theorem read_sentinel_empty (lines : List String) (frames : List Frame) (st' : PState)
    (h : read_pdb lines = Except.ok (true, frames, st'))
    (hids : ∀ l ∈ lines.drop 1, pstrip l ≠ "END" →
      ∃ r, atomRec? (pstrip l) = some r ∧ 1 ≤ r.molId) :
    ∀ f ∈ frames, molIdxAt st' f 0 = some 0 ∧
      ∃ r0, f.molecules.get? 0 = some r0 ∧ molListAt st' r0 = [] := by
  have hr := read_pdb_ok_shape lines frames st' h
  obtain ⟨hl0, hsent⟩ := readLoop_sentinels (lines.drop 1) initState [] [] 0 st' frames hr
    (by simp) hids rfl (by simp)
  intro f hf
  obtain ⟨r0, h1, h2⟩ := hsent f hf
  constructor
  · unfold molIdxAt
    rw [h1]
    have hmap : Option.map MolData.idx (st'.mols.get? r0) = some 0 := by
      rw [h2]
      rfl
    exact hmap
  · refine ⟨r0, h1, ?_⟩
    unfold molListAt
    have hgd : st'.mols.getD r0 ⟨0, 0⟩ = ⟨0, 0⟩ := by
      have : st'.mols.getD r0 ⟨0, 0⟩ = (st'.mols.get? r0).getD ⟨0, 0⟩ := rfl
      rw [this, h2]
      rfl
    rw [hgd]
    have : st'.lists.getD 0 [] = (st'.lists.get? 0).getD [] := rfl
    rw [this, hl0]
    rfl

/-- C6, witness at the first frame of the two-frame demo file with
molecule ids 1, 2, 1. -/
theorem read_sentinel_empty_witness :
    molIdxAt (readStateOf demoLines) demoFrame0 0 = some 0 ∧
      ∃ r0, demoFrame0.molecules.get? 0 = some r0 ∧
        molListAt (readStateOf demoLines) r0 = [] :=
  read_sentinel_empty demoLines (readFramesOf demoLines) (readStateOf demoLines)
    (by rfl) (by decide) demoFrame0 (by decide)

theorem assignAtom_hit_shape (st : PState) (ms : List Nat) (r : RawRec) (mref : Nat)
    (hg : pyGet? ms r.molId = some mref) :
    assignAtom st ms r =
      (⟨st.mols,
        st.lists.set (st.mols.getD mref ⟨0, 0⟩).atomsRef
          (st.lists.getD (st.mols.getD mref ⟨0, 0⟩).atomsRef [] ++ [st.nextTag]),
        st.nextTag + 1⟩,
       ms, ⟨st.nextTag, r.name, r.serial, r.x, r.y, r.z, mref⟩) := by
  unfold assignAtom freshTag appendTag
  rw [hg]

theorem assignAtom_heap_mono (st : PState) (ms : List Nat) (r : RawRec) :
    st.nextTag ≤ (assignAtom st ms r).1.nextTag ∧
    (∀ n md, st.mols.get? n = some md → (assignAtom st ms r).1.mols.get? n = some md) ∧
    (∀ n xs, st.lists.get? n = some xs →
      ∃ ys, (assignAtom st ms r).1.lists.get? n = some (xs ++ ys) ∧
        ∀ t ∈ ys, st.nextTag ≤ t) := by
  cases hg : pyGet? ms r.molId with
  | some mref =>
    rw [assignAtom_hit_shape st ms r mref hg]
    refine ⟨Nat.le_succ st.nextTag, fun n md hm => hm, ?_⟩
    intro n xs hx
    by_cases hn : (st.mols.getD mref ⟨0, 0⟩).atomsRef = n
    · rw [hn]
      have hgd : st.lists.getD n [] = xs := by
        have e : st.lists.getD n [] = (st.lists.get? n).getD [] := rfl
        rw [e, hx]
        rfl
      rw [hgd]
      refine ⟨[st.nextTag], ?_, ?_⟩
      · exact List.get?_set_eq_of_lt _ (get?_some_lt hx)
      · intro t ht
        simp at ht
        omega
    · refine ⟨[], ?_, by simp⟩
      rw [List.append_nil, List.get?_set_ne _ _ hn]
      exact hx
  | none =>
    rw [assignAtom_miss st ms r hg]
    refine ⟨Nat.le_succ st.nextTag, ?_, ?_⟩
    · intro n md hm
      rw [List.get?_append (get?_some_lt hm)]
      exact hm
    · intro n xs hx
      refine ⟨[], ?_, by simp⟩
      rw [List.append_nil, List.get?_append (get?_some_lt hx)]
      exact hx

theorem buildStep_heap_mono (st : PState) (fr : Frame) (a : String)
    (p : PState × Frame) (h : buildStep st fr a = Except.ok p) :
    st.nextTag ≤ p.1.nextTag ∧
    (∀ n md, st.mols.get? n = some md → p.1.mols.get? n = some md) ∧
    (∀ n xs, st.lists.get? n = some xs →
      ∃ ys, p.1.lists.get? n = some (xs ++ ys) ∧ ∀ t ∈ ys, st.nextTag ≤ t) := by
  unfold buildStep at h
  split at h
  · cases h
  · split at h
    · injection h with h2
      rw [← h2]
      exact assignAtom_heap_mono st fr.molecules _
    · cases h

theorem buildFrameAux_heap_mono (ls : List String) :
    ∀ (st : PState) (fr : Frame) (st' : PState) (fr' : Frame),
    buildFrameAux st fr ls = Except.ok (st', fr') →
    st.nextTag ≤ st'.nextTag ∧
    (∀ n md, st.mols.get? n = some md → st'.mols.get? n = some md) ∧
    (∀ n xs, st.lists.get? n = some xs →
      ∃ ys, st'.lists.get? n = some (xs ++ ys) ∧ ∀ t ∈ ys, st.nextTag ≤ t) := by
  induction ls with
  | nil =>
    intro st fr st' fr' h
    injection h with h2
    have hst : st = st' := congrArg Prod.fst h2
    subst hst
    exact ⟨Nat.le_refl _, fun n md hm => hm,
      fun n xs hx => ⟨[], by rw [List.append_nil]; exact hx, by simp⟩⟩
  | cons a rest ih =>
    intro st fr st' fr' h
    simp only [buildFrameAux] at h
    cases hs : buildStep st fr a with
    | error e => rw [hs] at h; cases h
    | ok p =>
      rw [hs] at h
      obtain ⟨ht1, hm1, hl1⟩ := buildStep_heap_mono st fr a p hs
      obtain ⟨ht2, hm2, hl2⟩ := ih p.1 p.2 st' fr' h
      refine ⟨by omega, fun n md hm => hm2 n md (hm1 n md hm), ?_⟩
      intro n xs hx
      obtain ⟨ys1, hy1, hy1b⟩ := hl1 n xs hx
      obtain ⟨ys2, hy2, hy2b⟩ := hl2 n (xs ++ ys1) hy1
      refine ⟨ys1 ++ ys2, ?_, ?_⟩
      · rw [← List.append_assoc]
        exact hy2
      · intro t ht
        rw [List.mem_append] at ht
        cases ht with
        | inl h1 => exact hy1b t h1
        | inr h2 => exact le_trans ht1 (hy2b t h2)

theorem buildFrame_heap_mono (st : PState) (num : Int) (ls : List String)
    (st' : PState) (fr' : Frame) (h : buildFrame st num ls = Except.ok (st', fr')) :
    st.nextTag ≤ st'.nextTag ∧
    (∀ n md, st.mols.get? n = some md → st'.mols.get? n = some md) ∧
    (∀ n xs, st.lists.get? n = some xs →
      ∃ ys, st'.lists.get? n = some (xs ++ ys) ∧ ∀ t ∈ ys, st.nextTag ≤ t) := by
  have h2 : buildFrameAux ⟨st.mols ++ [⟨0, 0⟩], st.lists, st.nextTag⟩
      ⟨num, [], [st.mols.length]⟩ ls = Except.ok (st', fr') := h
  obtain ⟨ht, hm, hl⟩ := buildFrameAux_heap_mono ls _ _ st' fr' h2
  refine ⟨ht, ?_, hl⟩
  intro n md hmd
  refine hm n md ?_
  show (st.mols ++ [(⟨0, 0⟩ : MolData)]).get? n = some md
  rw [List.get?_append (get?_some_lt hmd)]
  exact hmd

theorem get?_concat_cases {α : Type} {l : List α} {x : α} {n : Nat} {y : α}
    (h : (l ++ [x]).get? n = some y) :
    (n < l.length ∧ l.get? n = some y) ∨ (n = l.length ∧ y = x) := by
  by_cases hlt : n < l.length
  · rw [List.get?_append hlt] at h
    exact Or.inl ⟨hlt, h⟩
  · rw [List.get?_append_right (by omega)] at h
    cases hd : n - l.length with
    | zero =>
      rw [hd] at h
      injection h with h2
      exact Or.inr ⟨by omega, h2.symm⟩
    | succ d =>
      rw [hd] at h
      simp only [List.get?] at h
      cases h

theorem buildAux_zero_track (ls : List String) :
    ∀ (st : PState) (fr : Frame) (st' : PState) (fr' : Frame),
    (∀ l ∈ ls, ∃ r, atomRec? l = some r ∧ 0 ≤ r.molId) →
    buildFrameAux st fr ls = Except.ok (st', fr') →
    (∃ xs0, st.lists.get? 0 = some xs0) →
    (∃ r0, fr.molecules.get? 0 = some r0 ∧ st.mols.get? r0 = some ⟨0, 0⟩) →
    (∀ j mr, 1 ≤ j → fr.molecules.get? j = some mr →
        ∃ md, st.mols.get? mr = some md ∧ 1 ≤ md.idx) →
    (∀ a ∈ fr.atoms, ∃ md, st.mols.get? a.molecule = some md) →
    (∀ a ∈ fr.atoms, ∀ md, st.mols.get? a.molecule = some md → md.idx = 0 →
        ∃ xs, st.lists.get? 0 = some xs ∧ a.tag ∈ xs) →
    (∃ xs0, st'.lists.get? 0 = some xs0) ∧
    (∃ r0, fr'.molecules.get? 0 = some r0 ∧ st'.mols.get? r0 = some ⟨0, 0⟩) ∧
    (∀ j mr, 1 ≤ j → fr'.molecules.get? j = some mr →
        ∃ md, st'.mols.get? mr = some md ∧ 1 ≤ md.idx) ∧
    (∀ a ∈ fr'.atoms, ∃ md, st'.mols.get? a.molecule = some md) ∧
    (∀ a ∈ fr'.atoms, ∀ md, st'.mols.get? a.molecule = some md → md.idx = 0 →
        ∃ xs, st'.lists.get? 0 = some xs ∧ a.tag ∈ xs) := by
  induction ls with
  | nil =>
    intro st fr st' fr' hws h hx0 hsent hpos hval htr
    injection h with h2
    have hst : st = st' := congrArg Prod.fst h2
    have hfr : fr = fr' := congrArg Prod.snd h2
    subst hst
    subst hfr
    exact ⟨hx0, hsent, hpos, hval, htr⟩
  | cons l rest ih =>
    intro st fr st' fr' hws h hx0 hsent hpos hval htr
    obtain ⟨r, hr, hr0le⟩ := hws l (by simp)
    obtain ⟨xs0, hxs0⟩ := hx0
    obtain ⟨r0, hr0, hr0m⟩ := hsent
    cases hg : pyGet? fr.molecules r.molId with
    | some mref =>
      have hmref : fr.molecules.get? r.molId.toNat = some mref := by
        rw [show r.molId = ((r.molId.toNat : Nat) : Int) by omega, pyGet?_natCast] at hg
        exact hg
      by_cases hd0 : r.molId = 0
      · -- appended to the sentinel molecule: the shared list at address 0 grows
        have ht0 : r.molId.toNat = 0 := by omega
        rw [ht0] at hmref
        have hmrm : st.mols.get? mref = some ⟨0, 0⟩ := by
          have hmr0 : r0 = mref := by
            rw [hmref] at hr0
            injection hr0 with e
            exact e.symm
          rw [← hmr0]
          exact hr0m
        have hstep : buildStep st fr l = Except.ok
            (⟨st.mols, st.lists.set 0 (st.lists.getD 0 [] ++ [st.nextTag]),
              st.nextTag + 1⟩,
             ⟨fr.num,
              fr.atoms ++ [⟨st.nextTag, r.name, r.serial, r.x, r.y, r.z, mref⟩],
              fr.molecules⟩) := by
          rw [buildStep_of_atomRec hr,
            assignAtom_hit st fr.molecules r mref ⟨0, 0⟩ hg hmrm]
        rw [buildFrameAux_cons_ok st fr l rest _ hstep] at h
        have hset0 : ((st.lists.set (0 : Nat)
            (st.lists.getD 0 [] ++ [st.nextTag]))).get? 0 =
            some (st.lists.getD 0 [] ++ [st.nextTag]) :=
          List.get?_set_eq_of_lt _ (get?_some_lt hxs0)
        refine ih ⟨st.mols,
            st.lists.set 0 (st.lists.getD 0 [] ++ [st.nextTag]), st.nextTag + 1⟩
          ⟨fr.num,
            fr.atoms ++ [⟨st.nextTag, r.name, r.serial, r.x, r.y, r.z, mref⟩],
            fr.molecules⟩
          st' fr' (fun q hq => hws q (by simp [hq])) h
          ⟨_, hset0⟩ ⟨r0, hr0, hr0m⟩ hpos ?_ ?_
        · intro a ha2
          rw [List.mem_append] at ha2
          cases ha2 with
          | inl hao => exact hval a hao
          | inr han =>
            have : a = ⟨st.nextTag, r.name, r.serial, r.x, r.y, r.z, mref⟩ := by
              simpa using han
            subst this
            exact ⟨⟨0, 0⟩, hmrm⟩
        · intro a ha2 md hmd hmd0
          rw [List.mem_append] at ha2
          cases ha2 with
          | inl hao =>
            obtain ⟨xs, hxs, hmem⟩ := htr a hao md hmd hmd0
            have hxx : xs = xs0 := by
              rw [hxs] at hxs0
              injection hxs0
            rw [hxx] at hmem
            refine ⟨st.lists.getD 0 [] ++ [st.nextTag], hset0, ?_⟩
            have hgd : st.lists.getD 0 [] = xs0 := by
              have e : st.lists.getD 0 [] = (st.lists.get? 0).getD [] := rfl
              rw [e, hxs0]
              rfl
            rw [hgd, List.mem_append]
            exact Or.inl hmem
          | inr han =>
            have : a = ⟨st.nextTag, r.name, r.serial, r.x, r.y, r.z, mref⟩ := by
              simpa using han
            subst this
            refine ⟨st.lists.getD 0 [] ++ [st.nextTag], hset0, ?_⟩
            rw [List.mem_append]
            right
            simp
      · -- appended to a molecule at a position ≥ 1, whose id is ≥ 1
        obtain ⟨md, hmd, hmd1⟩ := hpos r.molId.toNat mref (by omega) hmref
        have ha := assignAtom_hit st fr.molecules r mref md hg hmd
        have hstep : buildStep st fr l = Except.ok
            (⟨st.mols,
              st.lists.set md.atomsRef (st.lists.getD md.atomsRef [] ++ [st.nextTag]),
              st.nextTag + 1⟩,
             ⟨fr.num,
              fr.atoms ++ [⟨st.nextTag, r.name, r.serial, r.x, r.y, r.z, mref⟩],
              fr.molecules⟩) := by
          rw [buildStep_of_atomRec hr, ha]
        rw [buildFrameAux_cons_ok st fr l rest _ hstep] at h
        have hmono := assignAtom_heap_mono st fr.molecules r
        rw [ha] at hmono
        obtain ⟨-, hmm, hlm⟩ := hmono
        obtain ⟨ys, hys, -⟩ := hlm 0 xs0 hxs0
        refine ih ⟨st.mols,
            st.lists.set md.atomsRef (st.lists.getD md.atomsRef [] ++ [st.nextTag]),
            st.nextTag + 1⟩
          ⟨fr.num,
            fr.atoms ++ [⟨st.nextTag, r.name, r.serial, r.x, r.y, r.z, mref⟩],
            fr.molecules⟩
          st' fr' (fun q hq => hws q (by simp [hq])) h
          ⟨xs0 ++ ys, hys⟩ ⟨r0, hr0, hr0m⟩ hpos ?_ ?_
        · intro a ha2
          rw [List.mem_append] at ha2
          cases ha2 with
          | inl hao => exact hval a hao
          | inr han =>
            have : a = ⟨st.nextTag, r.name, r.serial, r.x, r.y, r.z, mref⟩ := by
              simpa using han
            subst this
            exact ⟨md, hmd⟩
        · intro a ha2 md' hmd' hmd'0
          rw [List.mem_append] at ha2
          cases ha2 with
          | inl hao =>
            obtain ⟨xs, hxs, hmem⟩ := htr a hao md' hmd' hmd'0
            have hxx : xs = xs0 := by
              rw [hxs] at hxs0
              injection hxs0
            rw [hxx] at hmem
            refine ⟨xs0 ++ ys, hys, ?_⟩
            rw [List.mem_append]
            exact Or.inl hmem
          | inr han =>
            have : a = ⟨st.nextTag, r.name, r.serial, r.x, r.y, r.z, mref⟩ := by
              simpa using han
            subst this
            have heqmd : md' = md := by
              have e : st.mols.get? mref = some md' := hmd'
              rw [e] at hmd
              injection hmd
            subst heqmd
            exact absurd hmd'0 (by omega)
    | none =>
      -- a new molecule with id ≥ 1 is created (id 0 always hits the sentinel)
      have hne0 : r.molId ≠ 0 := by
        intro h0
        rw [h0, show (0 : Int) = ((0 : Nat) : Int) from rfl, pyGet?_natCast, hr0] at hg
        cases hg
      have hd1 : 1 ≤ r.molId := by omega
      have hstep : buildStep st fr l = Except.ok
          (⟨st.mols ++ [⟨r.molId, st.lists.length⟩], st.lists ++ [[st.nextTag]],
            st.nextTag + 1⟩,
           ⟨fr.num,
            fr.atoms ++ [⟨st.nextTag, r.name, r.serial, r.x, r.y, r.z, st.mols.length⟩],
            pyInsertIdx fr.molecules (r.molId + 1) st.mols.length⟩) := by
        rw [buildStep_of_atomRec hr, assignAtom_miss st fr.molecules r hg]
      rw [buildFrameAux_cons_ok st fr l rest _ hstep] at h
      refine ih ⟨st.mols ++ [⟨r.molId, st.lists.length⟩], st.lists ++ [[st.nextTag]],
          st.nextTag + 1⟩
        ⟨fr.num,
          fr.atoms ++ [⟨st.nextTag, r.name, r.serial, r.x, r.y, r.z, st.mols.length⟩],
          pyInsertIdx fr.molecules (r.molId + 1) st.mols.length⟩
        st' fr' (fun q hq => hws q (by simp [hq])) h ?_ ?_ ?_ ?_ ?_
      · refine ⟨xs0, ?_⟩
        show (st.lists ++ [[st.nextTag]]).get? 0 = some xs0
        rw [List.get?_append (get?_some_lt hxs0)]
        exact hxs0
      · refine ⟨r0, ?_, ?_⟩
        · show (pyInsertIdx fr.molecules (r.molId + 1) st.mols.length).get? 0 = some r0
          exact pyInsert_get?_zero fr.molecules (r.molId + 1) st.mols.length r0 hr0
            (by omega) (by omega)
        · show (st.mols ++ [(⟨r.molId, st.lists.length⟩ : MolData)]).get? r0 = some ⟨0, 0⟩
          rw [List.get?_append (get?_some_lt hr0m)]
          exact hr0m
      · intro j mr hj1 hjm
        have hmem := pyInsert_get?_pos fr.molecules (r.molId + 1) st.mols.length j mr
          hj1 (by omega) (by omega) (by have := get?_some_lt hr0; omega) hjm
        cases hmem with
        | inl heq =>
          subst heq
          exact ⟨⟨r.molId, st.lists.length⟩, List.get?_concat_length st.mols _, hd1⟩
        | inr hold =>
          obtain ⟨j'', hj''1, hj''⟩ := hold
          obtain ⟨md2, hmd2, hmd21⟩ := hpos j'' mr hj''1 hj''
          refine ⟨md2, ?_, hmd21⟩
          rw [List.get?_append (get?_some_lt hmd2)]
          exact hmd2
      · intro a ha2
        rw [List.mem_append] at ha2
        cases ha2 with
        | inl hao =>
          obtain ⟨md, hmd⟩ := hval a hao
          refine ⟨md, ?_⟩
          rw [List.get?_append (get?_some_lt hmd)]
          exact hmd
        | inr han =>
          have : a = ⟨st.nextTag, r.name, r.serial, r.x, r.y, r.z, st.mols.length⟩ := by
            simpa using han
          subst this
          exact ⟨⟨r.molId, st.lists.length⟩, List.get?_concat_length st.mols _⟩
      · intro a ha2 md' hmd' hmd'0
        rw [List.mem_append] at ha2
        cases ha2 with
        | inl hao =>
          obtain ⟨md0, hmd0⟩ := hval a hao
          have hmd0' : (st.mols ++ [(⟨r.molId, st.lists.length⟩ : MolData)]).get?
              a.molecule = some md0 := by
            rw [List.get?_append (get?_some_lt hmd0)]
            exact hmd0
          have heqmd : md' = md0 := by
            rw [hmd0'] at hmd'
            injection hmd' with e
            exact e.symm
          subst heqmd
          obtain ⟨xs, hxs, hmem⟩ := htr a hao md' hmd0 hmd'0
          refine ⟨xs, ?_, hmem⟩
          show (st.lists ++ [[st.nextTag]]).get? 0 = some xs
          rw [List.get?_append (get?_some_lt hxs)]
          exact hxs
        | inr han =>
          have : a = ⟨st.nextTag, r.name, r.serial, r.x, r.y, r.z, st.mols.length⟩ := by
            simpa using han
          subst this
          have heqmd : md' = ⟨r.molId, st.lists.length⟩ := by
            have e := List.get?_concat_length st.mols (⟨r.molId, st.lists.length⟩ : MolData)
            have e2 : (st.mols ++ [(⟨r.molId, st.lists.length⟩ : MolData)]).get?
                st.mols.length = some md' := hmd'
            rw [e] at e2
            injection e2 with e3
            exact e3.symm
          subst heqmd
          have h0 : r.molId = 0 := hmd'0
          exact absurd h0 hne0

theorem readLoop_zero_track (ls : List String) :
    ∀ (st : PState) (frames : List Frame) (buf : List String) (n : Nat)
      (st' : PState) (frames' : List Frame),
    readLoop st frames buf n ls = Except.ok (st', frames') →
    (∀ l ∈ buf, ∃ r, atomRec? l = some r ∧ 0 ≤ r.molId) →
    (∀ l ∈ ls, pstrip l ≠ "END" → ∃ r, atomRec? (pstrip l) = some r ∧ 0 ≤ r.molId) →
    (∃ xs0, st.lists.get? 0 = some xs0) →
    (∀ f ∈ frames, ∃ r0, f.molecules.get? 0 = some r0 ∧
        st.mols.get? r0 = some ⟨0, 0⟩) →
    (∀ f ∈ frames, ∀ a ∈ f.atoms, ∃ md, st.mols.get? a.molecule = some md) →
    (∀ f ∈ frames, ∀ a ∈ f.atoms, ∀ md, st.mols.get? a.molecule = some md →
        md.idx = 0 → ∃ xs, st.lists.get? 0 = some xs ∧ a.tag ∈ xs) →
    (∃ xs0, st'.lists.get? 0 = some xs0) ∧
    (∀ f ∈ frames', ∃ r0, f.molecules.get? 0 = some r0 ∧
        st'.mols.get? r0 = some ⟨0, 0⟩) ∧
    (∀ f ∈ frames', ∀ a ∈ f.atoms, ∃ md, st'.mols.get? a.molecule = some md) ∧
    (∀ f ∈ frames', ∀ a ∈ f.atoms, ∀ md, st'.mols.get? a.molecule = some md →
        md.idx = 0 → ∃ xs, st'.lists.get? 0 = some xs ∧ a.tag ∈ xs) := by
  induction ls with
  | nil =>
    intro st frames buf n st' frames' h hbuf hls hx0 hsent hval htr
    injection h with h2
    have hst : st = st' := congrArg Prod.fst h2
    have hfr : frames = frames' := congrArg Prod.snd h2
    subst hst
    subst hfr
    exact ⟨hx0, hsent, hval, htr⟩
  | cons l ls ih =>
    intro st frames buf n st' frames' h hbuf hls hx0 hsent hval htr
    rw [readLoop_cons] at h
    by_cases he : pstrip l = "END"
    · rw [if_pos he] at h
      cases hb : buildFrame st (Int.ofNat n) buf with
      | error e => rw [hb] at h; cases h
      | ok p =>
        rw [hb] at h
        obtain ⟨xs0, hxs0⟩ := hx0
        have hb2 : buildFrameAux ⟨st.mols ++ [⟨0, 0⟩], st.lists, st.nextTag⟩
            ⟨Int.ofNat n, [], [st.mols.length]⟩ buf = Except.ok (p.1, p.2) := hb
        obtain ⟨hl0', hsent', hpos', hval', htr'⟩ :=
          buildAux_zero_track buf ⟨st.mols ++ [⟨0, 0⟩], st.lists, st.nextTag⟩
            ⟨Int.ofNat n, [], [st.mols.length]⟩ p.1 p.2 hbuf hb2
            ⟨xs0, hxs0⟩
            ⟨st.mols.length, rfl, List.get?_concat_length st.mols ⟨0, 0⟩⟩
            (by
              intro j mr hj1 hjm
              have hn : ([st.mols.length] : List Nat).get? j = none :=
                List.get?_eq_none.2 (by simp; omega)
              rw [hn] at hjm
              cases hjm)
            (by simp) (by simp)
        obtain ⟨-, hmm, hlm⟩ := buildFrameAux_heap_mono buf _ _ p.1 p.2 hb2
        have hliftm : ∀ q md, st.mols.get? q = some md →
            p.1.mols.get? q = some md := by
          intro q md hq
          refine hmm q md ?_
          show (st.mols ++ [(⟨0, 0⟩ : MolData)]).get? q = some md
          rw [List.get?_append (get?_some_lt hq)]
          exact hq
        refine ih p.1 (frames ++ [p.2]) [] (n + 1) st' frames' h (by simp)
          (fun q hq => hls q (by simp [hq])) hl0' ?_ ?_ ?_
        · intro f hf
          rw [List.mem_append] at hf
          cases hf with
          | inl hfo =>
            obtain ⟨r0, h1, h2⟩ := hsent f hfo
            exact ⟨r0, h1, hliftm r0 ⟨0, 0⟩ h2⟩
          | inr hfn =>
            have : f = p.2 := by simpa using hfn
            subst this
            exact hsent'
        · intro f hf a ha
          rw [List.mem_append] at hf
          cases hf with
          | inl hfo =>
            obtain ⟨md, hmd⟩ := hval f hfo a ha
            exact ⟨md, hliftm a.molecule md hmd⟩
          | inr hfn =>
            have : f = p.2 := by simpa using hfn
            subst this
            exact hval' a ha
        · intro f hf a ha md' hmd' hmd'0
          rw [List.mem_append] at hf
          cases hf with
          | inl hfo =>
            obtain ⟨md0, hmd0⟩ := hval f hfo a ha
            have heq : md' = md0 := by
              rw [hliftm a.molecule md0 hmd0] at hmd'
              injection hmd' with e
              exact e.symm
            subst heq
            obtain ⟨xs, hxs, hmem⟩ := htr f hfo a ha md' hmd0 hmd'0
            obtain ⟨ys, hys, -⟩ := hlm 0 xs hxs
            refine ⟨xs ++ ys, hys, ?_⟩
            rw [List.mem_append]
            exact Or.inl hmem
          | inr hfn =>
            have : f = p.2 := by simpa using hfn
            subst this
            exact htr' a ha md' hmd' hmd'0
    · rw [if_neg he] at h
      refine ih st frames (buf ++ [pstrip l]) n st' frames' h ?_
        (fun q hq => hls q (by simp [hq])) hx0 hsent hval htr
      intro q hq
      rw [List.mem_append] at hq
      cases hq with
      | inl hqo => exact hbuf q hqo
      | inr hqn =>
        have hq2 : q = pstrip l := by simpa using hqn
        subst hq2
        exact hls l (by simp) he

/-- C2, confirmed: every default-constructed Molecule — in particular the
sentinel `Molecule(0)` created for each Frame — shares the single
default-argument list object (store address 0); consequently an atom
assigned to a molecule whose id is 0 (which is where an atom line
carrying molecule id 0 lands) appears in `frames[j].molecules[0].atoms`
for every frame `j` of the returned trajectory, not only the frame it was
parsed in.  Molecule ids are assumed nonnegative so that no negative
index displaces the sentinel from position 0. -/
theorem read_shared_default_zero (lines : List String) (frames : List Frame)
    (st' : PState)
    (h : read_pdb lines = Except.ok (true, frames, st'))
    (hids : ∀ l ∈ lines.drop 1, pstrip l ≠ "END" →
      ∃ r, atomRec? (pstrip l) = some r ∧ 0 ≤ r.molId) :
    ∀ f ∈ frames, ∀ a ∈ f.atoms,
      (st'.mols.get? a.molecule).map MolData.idx = some 0 →
      ∀ g ∈ frames, ∃ r0, g.molecules.get? 0 = some r0 ∧
        st'.mols.get? r0 = some ⟨0, 0⟩ ∧ a.tag ∈ molListAt st' r0 := by
  have hr := read_pdb_ok_shape lines frames st' h
  obtain ⟨hl0ex, hsent, hval, htr⟩ := readLoop_zero_track (lines.drop 1) initState
    [] [] 0 st' frames hr (by simp) hids ⟨[], rfl⟩ (by simp) (by simp) (by simp)
  intro f hf a ha hidx g hg
  obtain ⟨r0, hr0, hr0m⟩ := hsent g hg
  obtain ⟨md, hmd⟩ := hval f hf a ha
  have hmd0 : md.idx = 0 := by
    rw [hmd] at hidx
    injection hidx
  obtain ⟨xs, hxs, hmem⟩ := htr f hf a ha md hmd hmd0
  refine ⟨r0, hr0, hr0m, ?_⟩
  unfold molListAt
  have hgd : st'.mols.getD r0 ⟨0, 0⟩ = ⟨0, 0⟩ := by
    have e : st'.mols.getD r0 ⟨0, 0⟩ = (st'.mols.get? r0).getD ⟨0, 0⟩ := rfl
    rw [e, hr0m]
    rfl
  rw [hgd]
  show a.tag ∈ st'.lists.getD 0 []
  have e2 : st'.lists.getD 0 [] = (st'.lists.get? 0).getD [] := rfl
  rw [e2, hxs]
  exact hmem

/-- C2, witness: the id-0 atom parsed in the first frame of `zeroLines`
is visible through `molecules[0].atoms` of the second frame as well. -/
theorem read_shared_default_zero_witness :
    ∃ r0, zeroFrame1.molecules.get? 0 = some r0 ∧
      (readStateOf zeroLines).mols.get? r0 = some ⟨0, 0⟩ ∧
      zeroAtom0.tag ∈ molListAt (readStateOf zeroLines) r0 :=
  read_shared_default_zero zeroLines (readFramesOf zeroLines) (readStateOf zeroLines)
    (by rfl) (by decide) zeroFrame0 (by decide) zeroAtom0 (by decide) (by decide)
    zeroFrame1 (by decide)

theorem get?_mem' {α : Type} {l : List α} {n : Nat} {a : α}
    (h : l.get? n = some a) : a ∈ l := by
  induction l generalizing n with
  | nil => cases h
  | cons x xs ih =>
    cases n with
    | zero =>
      injection h with h2
      subst h2
      exact List.mem_cons_self x xs
    | succ m => exact List.mem_cons_of_mem x (ih h)

theorem pyGet?_mem {α : Type} {l : List α} {i : Int} {x : α}
    (h : pyGet? l i = some x) : x ∈ l := by
  unfold pyGet? at h
  split at h
  · exact get?_mem' h
  · split at h
    · exact get?_mem' h
    · cases h

theorem pyInsert_mem {α : Type} {l : List α} {i : Int} {a : α} {x : α}
    (h : x ∈ pyInsertIdx l i a) : x = a ∨ x ∈ l := by
  simp only [pyInsertIdx] at h
  rw [List.mem_append, List.mem_cons] at h
  rcases h with h1 | h2 | h3
  · exact Or.inr (List.take_subset _ _ h1)
  · exact Or.inl h2
  · exact Or.inr (List.drop_subset _ _ h3)

theorem get?_set_cases {α : Type} {l : List α} {A : Nat} {v : α} {n : Nat} {y : α}
    (h : (l.set A v).get? n = some y) :
    (n = A ∧ y = v) ∨ l.get? n = some y := by
  by_cases hn : n = A
  · subst hn
    have hlt : n < l.length := by
      have h2 := get?_some_lt h
      rwa [List.length_set] at h2
    rw [List.get?_set_eq_of_lt _ hlt] at h
    injection h with h2
    exact Or.inl ⟨rfl, h2.symm⟩
  · rw [List.get?_set_ne _ _ (fun e => hn e.symm)] at h
    exact Or.inr h

theorem get?_set_some {α : Type} {l : List α} (A : Nat) (v : α) {n : Nat} {xs : α}
    (h : l.get? n = some xs) : ∃ xs', (l.set A v).get? n = some xs' := by
  by_cases hn : n = A
  · subst hn
    exact ⟨v, List.get?_set_eq_of_lt _ (get?_some_lt h)⟩
  · refine ⟨xs, ?_⟩
    rw [List.get?_set_ne _ _ (fun e => hn e.symm)]
    exact h

theorem buildStep_ok_shape (st : PState) (fr : Frame) (a : String) (p : PState × Frame)
    (h : buildStep st fr a = Except.ok p) :
    ∃ r, parseLine a = Except.ok r ∧ r.typ = "ATOM" ∧
      p = ((assignAtom st fr.molecules r).1,
           ⟨fr.num, fr.atoms ++ [(assignAtom st fr.molecules r).2.2],
            (assignAtom st fr.molecules r).2.1⟩) := by
  unfold buildStep at h
  split at h
  · cases h
  · rename_i r heq
    split at h
    · rename_i ht
      injection h with h2
      exact ⟨r, heq, ht, h2.symm⟩
    · cases h

theorem AtomsOnce_mono (st st2 : PState) (as : List AtomBond)
    (htag : st.nextTag ≤ st2.nextTag)
    (hmm : ∀ n md, st.mols.get? n = some md → st2.mols.get? n = some md)
    (hlm : ∀ n xs, st.lists.get? n = some xs →
      ∃ ys, st2.lists.get? n = some (xs ++ ys) ∧ ∀ t ∈ ys, st.nextTag ≤ t)
    (h : AtomsOnce st as) : AtomsOnce st2 as := by
  intro a ha
  obtain ⟨hta, md, hmd, xs, hxs, hcnt⟩ := h a ha
  refine ⟨by omega, md, hmm _ _ hmd, ?_⟩
  obtain ⟨ys, hys, hfresh⟩ := hlm _ _ hxs
  refine ⟨xs ++ ys, hys, ?_⟩
  rw [List.count_append, hcnt]
  have hy0 : ys.count a.tag = 0 := by
    rw [List.count_eq_zero]
    intro hmem
    have h2 := hfresh a.tag hmem
    omega
  rw [hy0]

theorem buildAux_count (ls : List String) :
    ∀ (st : PState) (fr : Frame) (st' : PState) (fr' : Frame),
    buildFrameAux st fr ls = Except.ok (st', fr') →
    TagsBound st → MsOK st fr.molecules → AtomsOnce st fr.atoms →
    TagsBound st' ∧ MsOK st' fr'.molecules ∧ AtomsOnce st' fr'.atoms := by
  induction ls with
  | nil =>
    intro st fr st' fr' h htb hms hao
    injection h with h2
    have hst : st = st' := congrArg Prod.fst h2
    have hfr : fr = fr' := congrArg Prod.snd h2
    subst hst
    subst hfr
    exact ⟨htb, hms, hao⟩
  | cons l rest ih =>
    intro st fr st' fr' h htb hms hao
    revert h
    simp only [buildFrameAux]
    cases hs : buildStep st fr l with
    | error e =>
      intro h
      cases h
    | ok p =>
      intro h
      obtain ⟨r, hpl, hty, hp⟩ := buildStep_ok_shape st fr l p hs
      subst hp
      cases hg : pyGet? fr.molecules r.molId with
      | some mref =>
        obtain ⟨md, hmd, xs_m, hxs⟩ := hms mref (pyGet?_mem hg)
        have ha := assignAtom_hit st fr.molecules r mref md hg hmd
        rw [ha] at h
        have hgd : st.lists.getD md.atomsRef [] = xs_m := by
          have e : st.lists.getD md.atomsRef [] =
              (st.lists.get? md.atomsRef).getD [] := rfl
          rw [e, hxs]
          rfl
        rw [hgd] at h
        have hlt : md.atomsRef < st.lists.length := get?_some_lt hxs
        have hnew : (st.lists.set md.atomsRef (xs_m ++ [st.nextTag])).get?
            md.atomsRef = some (xs_m ++ [st.nextTag]) :=
          List.get?_set_eq_of_lt _ hlt
        refine ih ⟨st.mols, st.lists.set md.atomsRef (xs_m ++ [st.nextTag]),
            st.nextTag + 1⟩
          ⟨fr.num, fr.atoms ++ [⟨st.nextTag, r.name, r.serial, r.x, r.y, r.z, mref⟩],
            fr.molecules⟩
          st' fr' h ?_ ?_ ?_
        · intro n xs hxs2
          rcases get?_set_cases hxs2 with ⟨hnA, hxv⟩ | hold
          · subst hxv
            intro t ht
            rw [List.mem_append] at ht
            show t < st.nextTag + 1
            cases ht with
            | inl h1 =>
              have h2 := htb _ _ hxs t h1
              omega
            | inr h2 =>
              have h3 : t = st.nextTag := by simpa using h2
              omega
          · intro t ht
            have h2 := htb _ _ hold t ht
            show t < st.nextTag + 1
            omega
        · intro mr hmr
          obtain ⟨md2, hmd2, xs2, hxs2⟩ := hms mr hmr
          exact ⟨md2, hmd2, get?_set_some _ _ hxs2⟩
        · intro a ha2
          rw [List.mem_append] at ha2
          cases ha2 with
          | inl hao2 =>
            obtain ⟨hta, md_a, hmda, xs_a, hxsa, hcnt⟩ := hao a hao2
            refine ⟨by show a.tag < st.nextTag + 1; omega, md_a, hmda, ?_⟩
            by_cases hAA : md_a.atomsRef = md.atomsRef
            · rw [hAA] at hxsa
              have hxx : xs_a = xs_m := by
                rw [hxsa] at hxs
                injection hxs

              rw [hAA]
              refine ⟨xs_m ++ [st.nextTag], hnew, ?_⟩
              rw [List.count_append]
              rw [hxx] at hcnt
              rw [hcnt]
              have h0 : ([st.nextTag] : List Nat).count a.tag = 0 := by
                rw [List.count_eq_zero]
                intro hmem
                have : a.tag = st.nextTag := by simpa using hmem
                omega
              rw [h0]
            · refine ⟨xs_a, ?_, hcnt⟩
              rw [List.get?_set_ne _ _ (fun e => hAA e.symm)]
              exact hxsa
          | inr han =>
            have : a = ⟨st.nextTag, r.name, r.serial, r.x, r.y, r.z, mref⟩ := by
              simpa using han
            subst this
            refine ⟨by show st.nextTag < st.nextTag + 1; omega, md, hmd,
              xs_m ++ [st.nextTag], hnew, ?_⟩
            rw [List.count_append]
            have h0 : xs_m.count st.nextTag = 0 := by
              rw [List.count_eq_zero]
              intro hmem
              have h2 := htb _ _ hxs st.nextTag hmem
              omega
            show xs_m.count st.nextTag + ([st.nextTag] : List Nat).count st.nextTag = 1
            rw [h0]
            simp
      | none =>
        have ha := assignAtom_miss st fr.molecules r hg
        rw [ha] at h
        refine ih ⟨st.mols ++ [⟨r.molId, st.lists.length⟩],
            st.lists ++ [[st.nextTag]], st.nextTag + 1⟩
          ⟨fr.num,
            fr.atoms ++ [⟨st.nextTag, r.name, r.serial, r.x, r.y, r.z, st.mols.length⟩],
            pyInsertIdx fr.molecules (r.molId + 1) st.mols.length⟩
          st' fr' h ?_ ?_ ?_
        · intro n xs hxs2
          rcases get?_concat_cases hxs2 with ⟨hlt2, hold⟩ | ⟨hn, hxeq⟩
          · intro t ht
            have h2 := htb _ _ hold t ht
            show t < st.nextTag + 1
            omega
          · subst hxeq
            intro t ht
            have h3 : t = st.nextTag := by simpa using ht
            show t < st.nextTag + 1
            omega
        · intro mr hmr
          rcases pyInsert_mem hmr with heq | hold
          · subst heq
            refine ⟨⟨r.molId, st.lists.length⟩, List.get?_concat_length st.mols _,
              [st.nextTag], ?_⟩
            exact List.get?_concat_length st.lists _
          · obtain ⟨md2, hmd2, xs2, hxs2⟩ := hms mr hold
            refine ⟨md2, ?_, xs2, ?_⟩
            · rw [List.get?_append (get?_some_lt hmd2)]
              exact hmd2
            · rw [List.get?_append (get?_some_lt hxs2)]
              exact hxs2
        · intro a ha2
          rw [List.mem_append] at ha2
          cases ha2 with
          | inl hao2 =>
            obtain ⟨hta, md_a, hmda, xs_a, hxsa, hcnt⟩ := hao a hao2
            refine ⟨by show a.tag < st.nextTag + 1; omega, md_a, ?_, xs_a, ?_, hcnt⟩
            · rw [List.get?_append (get?_some_lt hmda)]
              exact hmda
            · rw [List.get?_append (get?_some_lt hxsa)]
              exact hxsa
          | inr han =>
            have : a = ⟨st.nextTag, r.name, r.serial, r.x, r.y, r.z, st.mols.length⟩ := by
              simpa using han
            subst this
            refine ⟨by show st.nextTag < st.nextTag + 1; omega,
              ⟨r.molId, st.lists.length⟩,
              List.get?_concat_length st.mols _, [st.nextTag],
              List.get?_concat_length st.lists _, ?_⟩
            simp

theorem readLoop_count_once (ls : List String) :
    ∀ (st : PState) (frames : List Frame) (buf : List String) (n : Nat)
      (st' : PState) (frames' : List Frame),
    readLoop st frames buf n ls = Except.ok (st', frames') →
    TagsBound st →
    (∃ xs0, st.lists.get? 0 = some xs0) →
    (∀ f ∈ frames, AtomsOnce st f.atoms) →
    TagsBound st' ∧ (∀ f ∈ frames', AtomsOnce st' f.atoms) := by
  induction ls with
  | nil =>
    intro st frames buf n st' frames' h htb hx0 hfr
    injection h with h2
    have hst : st = st' := congrArg Prod.fst h2
    have hfr2 : frames = frames' := congrArg Prod.snd h2
    subst hst
    subst hfr2
    exact ⟨htb, hfr⟩
  | cons l ls ih =>
    intro st frames buf n st' frames' h htb hx0 hfr
    rw [readLoop_cons] at h
    by_cases he : pstrip l = "END"
    · rw [if_pos he] at h
      cases hb : buildFrame st (Int.ofNat n) buf with
      | error e => rw [hb] at h; cases h
      | ok p =>
        rw [hb] at h
        obtain ⟨xs0, hxs0⟩ := hx0
        have hb2 : buildFrameAux ⟨st.mols ++ [⟨0, 0⟩], st.lists, st.nextTag⟩
            ⟨Int.ofNat n, [], [st.mols.length]⟩ buf = Except.ok (p.1, p.2) := hb
        obtain ⟨htb', hms', hao'⟩ := buildAux_count buf
          ⟨st.mols ++ [⟨0, 0⟩], st.lists, st.nextTag⟩
          ⟨Int.ofNat n, [], [st.mols.length]⟩ p.1 p.2 hb2 htb
          (by
            intro mr hmr
            have hmr2 : mr = st.mols.length := by simpa using hmr
            subst hmr2
            exact ⟨⟨0, 0⟩, List.get?_concat_length st.mols _, xs0, hxs0⟩)
          (by intro a ha; simp at ha)
        obtain ⟨htagM, hmmM, hlmM⟩ := buildFrameAux_heap_mono buf _ _ p.1 p.2 hb2
        have hmono_frames : ∀ f ∈ frames, AtomsOnce p.1 f.atoms := by
          intro f hf
          refine AtomsOnce_mono st p.1 f.atoms htagM ?_ ?_ (hfr f hf)
          · intro q md hq
            refine hmmM q md ?_
            show (st.mols ++ [(⟨0, 0⟩ : MolData)]).get? q = some md
            rw [List.get?_append (get?_some_lt hq)]
            exact hq
          · intro q xs hq
            exact hlmM q xs hq
        obtain ⟨ys, hys, -⟩ := hlmM 0 xs0 hxs0
        refine ih p.1 (frames ++ [p.2]) [] (n + 1) st' frames' h htb'
          ⟨xs0 ++ ys, hys⟩ ?_
        intro f hf
        rw [List.mem_append] at hf
        cases hf with
        | inl hfo => exact hmono_frames f hfo
        | inr hfn =>
          have : f = p.2 := by simpa using hfn
          subst this
          exact hao'
    · rw [if_neg he] at h
      exact ih st frames (buf ++ [pstrip l]) n st' frames' h htb hx0 hfr

theorem read_pdb_ok_false_shape (lines : List String) (frames : List Frame)
    (st' : PState)
    (h : read_pdb lines = Except.ok (false, frames, st')) : frames = [] := by
  unfold read_pdb at h
  cases hv : valid_pdb lines with
  | error e =>
    rw [hv] at h
    cases h
  | ok b =>
    rw [hv] at h
    cases b with
    | false =>
      have h2 : (Except.ok (false, [], initState) :
          Except PErr (Bool × List Frame × PState)) =
          Except.ok (false, frames, st') := h
      injection h2 with h3
      exact (congrArg (fun q => q.2.1) h3).symm
    | true =>
      have h2 : (match readLoop initState [] [] 0 (lines.drop 1) with
          | Except.error e => Except.error e
          | Except.ok p => Except.ok (true, p.2, p.1)) =
          (Except.ok (false, frames, st') : Except PErr (Bool × List Frame × PState)) := h
      cases hr : readLoop initState [] [] 0 (lines.drop 1) with
      | error e =>
        rw [hr] at h2
        cases h2
      | ok p =>
        rw [hr] at h2
        injection h2 with h3
        have : (true, p.2, p.1).1 = (false, frames, st').1 := congrArg Prod.fst h3
        simp at this

/-- C7, confirmed: for every atom record in a returned frame's atom
sequence, the molecule referenced by the atom's back-link contains that
atom in its atoms list exactly once — whether the molecule already
existed at the looked-up position or was created on demand. -/
theorem read_backref_once (lines : List String) (b : Bool) (frames : List Frame)
    (st' : PState) (h : read_pdb lines = Except.ok (b, frames, st')) :
    ∀ f ∈ frames, ∀ a ∈ f.atoms, (molListAt st' a.molecule).count a.tag = 1 := by
  cases b with
  | false =>
    have hfr : frames = [] := read_pdb_ok_false_shape lines frames st' h
    subst hfr
    intro f hf
    simp at hf
  | true =>
    have hr := read_pdb_ok_shape lines frames st' h
    obtain ⟨-, hall⟩ := readLoop_count_once (lines.drop 1) initState [] [] 0 st' frames
      hr (by intro n xs hxs t ht; cases n <;> simp [initState] at hxs <;> simp [hxs] at ht)
      ⟨[], rfl⟩ (by simp)
    intro f hf a ha
    obtain ⟨-, md, hmd, xs, hxs, hcnt⟩ := hall f hf a ha
    unfold molListAt
    have hgd : st'.mols.getD a.molecule ⟨0, 0⟩ = md := by
      have e : st'.mols.getD a.molecule ⟨0, 0⟩ =
          (st'.mols.get? a.molecule).getD ⟨0, 0⟩ := rfl
      rw [e, hmd]
      rfl
    rw [hgd]
    have e2 : st'.lists.getD md.atomsRef [] = xs := by
      have e : st'.lists.getD md.atomsRef [] =
          (st'.lists.get? md.atomsRef).getD [] := rfl
      rw [e, hxs]
      rfl
    rw [e2]
    exact hcnt

/-- C7, witness: the first atom of the demo file's first frame is counted
exactly once in its back-referenced molecule's atom list. -/
theorem read_backref_once_witness :
    (molListAt (readStateOf demoLines) demoAtom0.molecule).count demoAtom0.tag = 1 :=
  read_backref_once demoLines true (readFramesOf demoLines) (readStateOf demoLines)
    (by rfl) demoFrame0 (by decide) demoAtom0 (by decide)

end Pscm
